import Mathlib

/-!
Verification of the TOON (Token-Oriented Object Notation) serialization core,
a shallow embedding of `src/backend/core/toon_encoder.py`.

Text is modelled as `List Char`.  Python string helpers (`strip`, `lower`,
`split`, `splitlines`, `join`, `replace`) are modelled on their ASCII
behaviour, which is all the codec exercises.  Python `float` values are
modelled opaquely by their shortest round-tripping decimal text (the string
`str(f)` produces); this is faithful whenever that text is canonical, and no
claim below depends on float formatting.
-/

/-- Python `str.strip()` whitespace: the characters `str.isspace` accepts. -/
def isPySpace (c : Char) : Bool :=
  c = '\t' || c = '\n' || c = '\x0b' || c = '\x0c' || c = '\r' || c = '\x1c' || c = '\x1d' ||
  c = '\x1e' || c = '\x1f' || c = ' ' || c = '\x85' || c = '\xa0' || c = '\u1680' ||
  c = '\u2000' || c = '\u2001' || c = '\u2002' || c = '\u2003' || c = '\u2004' || c = '\u2005' ||
  c = '\u2006' || c = '\u2007' || c = '\u2008' || c = '\u2009' || c = '\u200a' || c = '\u2028' ||
  c = '\u2029' || c = '\u202f' || c = '\u205f' || c = '\u3000'

/-- The line boundaries of Python `str.splitlines()` (`\r\n` is consumed
as one boundary by the splitter itself). -/
def isLineBreakChar (c : Char) : Bool :=
  c = '\n' || c = '\r' || c = '\x0b' || c = '\x0c' ||
  c = '\x1c' || c = '\x1d' || c = '\x1e' || c = '\x85' ||
  c = '\u2028' || c = '\u2029'

/-- Leading-whitespace removal, the left half of Python `str.strip()`. -/
def pyStripLeft (s : List Char) : List Char :=
  s.dropWhile isPySpace

/-- Trailing-whitespace removal, the right half of Python `str.strip()`. -/
def pyStripRight (s : List Char) : List Char :=
  (s.reverse.dropWhile isPySpace).reverse

/-- Python `str.strip()`. -/
def pyStrip (s : List Char) : List Char :=
  pyStripRight (pyStripLeft s)

/-- Python `str.lower()` (ASCII case folding, which is all the codec needs). -/
def pyLower (s : List Char) : List Char :=
  s.map Char.toLower

/-- Python `sep.join(pieces)`: pieces joined by a separator. -/
def joinSep (sep : List Char) : List (List Char) → List Char
  | [] => []
  | [x] => x
  | x :: y :: rest => x ++ sep ++ joinSep sep (y :: rest)

/-- Helper for `pySplit`. -/
def pySplitAux (sep : Char) : List Char → List Char → List (List Char)
  | [], cur => [cur.reverse]
  | c :: rest, cur =>
    if c = sep then cur.reverse :: pySplitAux sep rest []
    else pySplitAux sep rest (c :: cur)

/-- Python `str.split(sep)` for a one-character separator:
`"".split(",") = [""]`, `"a,".split(",") = ["a", ""]`. -/
def pySplit (sep : Char) (s : List Char) : List (List Char) :=
  pySplitAux sep s []

/-- Helper for `pySplitlines`. -/
def pySplitlinesAux : List Char → List Char → List (List Char)
  | [], cur => if cur.isEmpty then [] else [cur.reverse]
  | c :: rest, cur =>
    if c = '\r' then
      match rest with
      | c2 :: rest2 =>
        if c2 = '\n' then cur.reverse :: pySplitlinesAux rest2 []
        else cur.reverse :: pySplitlinesAux (c2 :: rest2) []
      | [] => cur.reverse :: pySplitlinesAux [] []
    else if isLineBreakChar c then cur.reverse :: pySplitlinesAux rest []
    else pySplitlinesAux rest (c :: cur)

/-- Python `str.splitlines()`: split at every line boundary character
(`\r\n` counting as one boundary); no trailing empty line is produced. -/
def pySplitlines (s : List Char) : List (List Char) :=
  pySplitlinesAux s []

/-- Python `s.replace('"', '\\"')`: escape every double quote. -/
def escapeQuotes : List Char → List Char
  | [] => []
  | c :: rest =>
    if c = '"' then '\\' :: '"' :: escapeQuotes rest
    else c :: escapeQuotes rest

/-- Python `s.replace('\\"', '"')`: left-to-right, non-overlapping. -/
def unescapeQuotes : List Char → List Char
  | [] => []
  | c :: rest =>
    if c = '\\' then
      match rest with
      | c2 :: rest2 =>
        if c2 = '"' then '"' :: unescapeQuotes rest2 else c :: unescapeQuotes (c2 :: rest2)
      | [] => [c]
    else c :: unescapeQuotes rest

/-- The decimal digit characters. -/
def digitChar (d : Nat) : Char :=
  if d = 0 then '0' else if d = 1 then '1' else if d = 2 then '2'
  else if d = 3 then '3' else if d = 4 then '4' else if d = 5 then '5'
  else if d = 6 then '6' else if d = 7 then '7' else if d = 8 then '8' else '9'

/-- Numeric value of a decimal digit character. -/
def digitVal (c : Char) : Nat :=
  c.toNat - 48

/-- Fuel-driven decimal rendering of a natural number (most significant
digit first); the fuel only bounds the digit count. -/
def natDigitsF : Nat → Nat → List Char
  | 0, _ => []
  | fuel + 1, n =>
    if n < 10 then [digitChar n]
    else natDigitsF fuel (n / 10) ++ [digitChar (n % 10)]

/-- Decimal text of a natural number, as Python `str` renders it. -/
def natToDigits (n : Nat) : List Char :=
  natDigitsF (n + 1) n

/-- Python `str(int)`: decimal text with a leading minus for negatives. -/
def intStr (n : Int) : List Char :=
  if n < 0 then '-' :: natToDigits n.natAbs else natToDigits n.natAbs

/-- Numeric value of a decimal digit string (most significant first). -/
def digitsVal (s : List Char) : Nat :=
  s.foldl (fun a c => 10 * a + digitVal c) 0

/-- Characters of the header-name class `[A-Za-z0-9_]` used by the
decoder's header regular expression. -/
def isWordChar (c : Char) : Bool :=
  c.isAlpha || c.isDigit || c = '_'

/-- The structured-value model the codec serializes: Python `None`, `bool`,
`int`, `float`, `str`, `list`, `dict` (insertion-ordered, string keys).
A float is carried as its decimal text, see the module comment. -/
inductive Value where
  | null
  | bool (b : Bool)
  | int (n : Int)
  | float (s : List Char)
  | str (s : List Char)
  | list (xs : List Value)
  | obj (kvs : List (List Char × Value))

/-- Whether a Python value is a `dict` (`isinstance(v, dict)`). -/
def Value.isObj : Value → Bool
  | .obj _ => true
  | _ => false

/-- The errors Python `ToonEncoder.encode` can raise: the explicit
`TypeError("Input must be dict or list.")`, and the `AttributeError`
raised by `it.get(k)` when a tabular row item is not a dict. -/
inductive EncError where
  | typeError
  | attributeError
deriving DecidableEq

/-- Python `dict.get(k)` with default `None`: first binding of the key,
`Null` when absent. -/
def pyGet (kvs : List (List Char × Value)) (k : List Char) : Value :=
  match kvs with
  | [] => .null
  | (k2, v) :: rest => if k2 = k then v else pyGet rest k

namespace ToonEncoder

/-- The special characters of `ToonEncoder.encode_value`'s quoting test,
in source order: `[",", "[", "]", "{", "}", "\n", "\r", '"']`. -/
def specialChars : List Char :=
  [',', '[', ']', '{', '}', '\n', '\r', '"']

/-- Model of `re.match(r"^-?\d", s)`: the string starts with a digit, or
with `-` immediately followed by a digit. -/
def numLikeStart : List Char → Bool
  | [] => false
  | c :: rest =>
    c.isDigit || (c = '-' && ((rest.head?.map Char.isDigit).getD false))

mutual

/-- `ToonEncoder.encode_value`: encode one Python value to its TOON token. -/
def encode_value : Value → List Char
  | .null => ("null".toList)
  | .bool b => if b then ("true".toList) else ("false".toList)
  | .int n => intStr n
  | .float s => s
  | .list xs => '[' :: joinSep (", ".toList) (encodeItems xs) ++ [']']
  | .obj kvs => '{' :: joinSep (", ".toList) (encodePairs kvs) ++ ['}']
  | .str s =>
    if numLikeStart s then '"' :: s ++ ['"']
    else if specialChars.any (fun c => s.contains c) then '"' :: escapeQuotes s ++ ['"']
    else if pyLower s = ("true".toList) ∨ pyLower s = ("false".toList) ∨
        pyLower s = ("null".toList) ∨ pyLower s = ("none".toList) then '"' :: s ++ ['"']
    else s

/-- `map(ToonEncoder.encode_value, v)` for the inline-list branch. -/
def encodeItems : List Value → List (List Char)
  | [] => []
  | v :: vs => encode_value v :: encodeItems vs

/-- The `f"{k}: {ToonEncoder.encode_value(vv)}"` pieces of the inline-dict
branch, in key order. -/
def encodePairs : List (List Char × Value) → List (List Char)
  | [] => []
  | (k, v) :: kvs => (k ++ ':' :: ' ' :: encode_value v) :: encodePairs kvs

end

/-- One data row of a tabular block: `",".join(map(encode_value,
(it.get(k) for k in keys)))`.  The generator is lazy: `it.get` is never
evaluated when `keys` is empty, so a non-dict item raises `AttributeError`
only when the first element had keys. -/
def rowOf (keys : List (List Char)) : Value → Except EncError (List Char)
  | .obj kvs => .ok (joinSep [','] (keys.map (fun k => encode_value (pyGet kvs k))))
  | _ => if keys.isEmpty then .ok [] else .error .attributeError

/-- All data rows of a tabular block, stopping at the first raised error. -/
def rowsOf (keys : List (List Char)) : List Value → Except EncError (List (List Char))
  | [] => .ok []
  | it :: rest =>
    match rowOf keys it with
    | .error e => .error e
    | .ok r =>
      match rowsOf keys rest with
      | .error e => .error e
      | .ok rs => .ok (r :: rs)

/-- `ToonEncoder._encode_list_block(name, items)`. -/
def encode_list_block (nm : Option (List Char)) (items : List Value) :
    Except EncError (List Char) :=
  match items with
  | [] => .ok (nm.getD [] ++ ['{', '}'])
  | first :: _ =>
    match first with
    | .obj kvs0 =>
      match rowsOf (kvs0.map (fun kv => kv.1)) items with
      | .error e => .error e
      | .ok rows =>
        .ok ((nm.getD [] ++ '{' :: joinSep [','] (kvs0.map (fun kv => kv.1)) ++ ['}']) ++
          '\n' :: joinSep ['\n'] rows)
    | _ => .ok (nm.getD [] ++ '[' :: joinSep (", ".toList) (items.map encode_value) ++ [']'])

/-- The `has_complex_values` test of `ToonEncoder.encode`: the value is a
dict, or a non-empty list whose first element is a dict. -/
def hasComplexValue : Value → Bool
  | .obj _ => true
  | .list (v0 :: _) => v0.isObj
  | _ => false

/-- One block of the complex-dict branch of `ToonEncoder.encode`. -/
def blockOf (nm : List Char) : Value → Except EncError (List Char)
  | .list items => encode_list_block (some nm) items
  | .obj okvs =>
    .ok (nm ++ '{' :: joinSep [','] (okvs.map (fun kv => kv.1)) ++ '}' ::
      '\n' :: joinSep [','] (okvs.map (fun kv => encode_value (pyGet okvs kv.1))))
  | v => .ok (nm ++ ':' :: ' ' :: encode_value v)

/-- All blocks of the complex-dict branch, stopping at the first error. -/
def blocksOf : List (List Char × Value) → Except EncError (List (List Char))
  | [] => .ok []
  | (nm, v) :: rest =>
    match blockOf nm v with
    | .error e => .error e
    | .ok b =>
      match blocksOf rest with
      | .error e => .error e
      | .ok bs => .ok (b :: bs)

/-- `ToonEncoder.encode`.  The row expression `data[k] for k in keys`
is modelled by `pyGet`, which agrees with dict indexing because every
`k` is a key of the dict being rendered. -/
def encode (data : Value) : Except EncError (List Char) :=
  match data with
  | .list items => encode_list_block none items
  | .obj kvs =>
    if kvs.any (fun kv => hasComplexValue kv.2) then
      match blocksOf kvs with
      | .error e => .error e
      | .ok blocks => .ok (joinSep ['\n', '\n'] blocks)
    else
      .ok ('{' :: joinSep [','] (kvs.map (fun kv => kv.1)) ++ '}' ::
        '\n' :: joinSep [','] (kvs.map (fun kv => encode_value (pyGet kvs kv.1))))
  | _ => .error .typeError

end ToonEncoder

namespace ToonDecoder

/-- State machine of `ToonDecoder._split_top_level_commas`: `esc` is the
escape flag, `inQ` the inside-quotes flag, `depth` the bracket/brace stack
height (only its emptiness is ever tested, so a counter is faithful), and
`cur` the reversed characters of the piece being scanned.  A piece is
yielded at each splitting comma, and the final piece only when at least one
character follows the last split point (`start < len(text)`). -/
def splitAux : List Char → Bool → Bool → Nat → List Char → List (List Char)
  | [], _, _, _, cur => if cur.isEmpty then [] else [pyStrip cur.reverse]
  | c :: rest, esc, inQ, depth, cur =>
    if esc then splitAux rest false inQ depth (c :: cur)
    else if c = '\\' then splitAux rest true inQ depth (c :: cur)
    else if c = '"' then splitAux rest false (!inQ) depth (c :: cur)
    else if inQ then splitAux rest false inQ depth (c :: cur)
    else if c = '[' ∨ c = '{' then splitAux rest false inQ (depth + 1) (c :: cur)
    else if c = ']' ∨ c = '}' then splitAux rest false inQ (depth - 1) (c :: cur)
    else if c = ',' ∧ depth = 0 then pyStrip cur.reverse :: splitAux rest false inQ depth []
    else splitAux rest false inQ depth (c :: cur)

/-- `ToonDecoder._split_top_level_commas`, fully consumed into a list. -/
def split_top_level_commas (text : List Char) : List (List Char) :=
  splitAux text false false 0 []

/-- Python `p.split(":", 1)` guarded by `":" in p`: split at the first
colon, `none` when there is no colon. -/
def splitFirstColon : List Char → Option (List Char × List Char)
  | [] => none
  | c :: rest =>
    if c = ':' then some ([], rest)
    else
      match splitFirstColon rest with
      | some (a, b) => some (c :: a, b)
      | none => none

/-- Python `k.strip('"')`: remove all leading and trailing quote chars. -/
def stripQuoteChars (s : List Char) : List Char :=
  ((s.dropWhile (fun c => c = '"')).reverse.dropWhile (fun c => c = '"')).reverse

/-- Python dict assignment `d[k] = v`: overwrite in place when the key is
present (keeping its position), else append. -/
def dictInsert (d : List (List Char × Value)) (k : List Char) (v : Value) :
    List (List Char × Value) :=
  if d.any (fun kv => kv.1 = k) then d.map (fun kv => if kv.1 = k then (k, v) else kv)
  else d ++ [(k, v)]

/-- Nonempty all-digit string. -/
def isDigits (s : List Char) : Bool :=
  !s.isEmpty && s.all Char.isDigit

/-- Model of `re.fullmatch(r"-?\d+", tok)`. -/
def matchInt : List Char → Bool
  | [] => isDigits []
  | c :: rest => if c = '-' then isDigits rest else isDigits (c :: rest)

/-- Python `int(tok)` on a token accepted by `matchInt`. -/
def pyIntVal (s : List Char) : Int :=
  match s with
  | [] => (digitsVal [] : Int)
  | c :: rest => if c = '-' then -(digitsVal rest : Int) else (digitsVal (c :: rest) : Int)

/-- Model of `re.fullmatch(r"-?\d+\.\d+", tok)` (maximal-munch on the
first digit run is equivalent because a digit cannot match the dot). -/
def matchFloatCore (t : List Char) : Bool :=
  !(t.takeWhile Char.isDigit).isEmpty &&
    (match t.drop (t.takeWhile Char.isDigit).length with
     | c :: d2 => c = '.' && isDigits d2
     | [] => false)

def matchFloat : List Char → Bool
  | [] => matchFloatCore []
  | c :: r => if c = '-' then matchFloatCore r else matchFloatCore (c :: r)

/-- The list branch of `parse_value` on the stripped interior, with the
recursive parse supplied as `pv`. -/
def parseListBody (pv : List Char → Value) (inner : List Char) : Value :=
  if inner.isEmpty then .list []
  else .list ((split_top_level_commas inner).map pv)

/-- The object branch of `parse_value` on the stripped interior, with the
recursive parse supplied as `pv`: pieces without a colon are skipped,
others update the dict at the unquoted stripped key. -/
def parseObjBody (pv : List Char → Value) (inner : List Char) : Value :=
  if inner.isEmpty then .obj []
  else
    .obj ((split_top_level_commas inner).foldl (fun acc p =>
      match splitFirstColon p with
      | some (k, v) =>
        dictInsert acc (stripQuoteChars (pyStrip k)) (pv (pyStrip v))
      | none => acc) [])

/-- `ToonDecoder.parse_value`, with fuel bounding the nesting recursion
into list/object interiors; every recursive call is on a strictly shorter
token, so `length + 1` fuel (supplied by `parse_value`) always suffices,
and the fuel-exhausted branch is unreachable from the wrapper.  The
Python local `tok = tok.strip()` is written out as `pyStrip tok0`. -/
def parseValueF : Nat → List Char → Value
  | 0, _ => .null
  | fuel + 1, tok0 =>
    if (pyStrip tok0).isEmpty then .null
    else if pyLower (pyStrip tok0) = ("null".toList) ∨
        pyLower (pyStrip tok0) = ("none".toList) then .null
    else if pyLower (pyStrip tok0) = ("true".toList) then .bool true
    else if pyLower (pyStrip tok0) = ("false".toList) then .bool false
    else if (pyStrip tok0).head? = some '"' ∧ (pyStrip tok0).getLast? = some '"' then
      .str (unescapeQuotes (((pyStrip tok0).drop 1).dropLast))
    else if (pyStrip tok0).head? = some '[' ∧ (pyStrip tok0).getLast? = some ']' then
      parseListBody (fun t => parseValueF fuel t) (pyStrip (((pyStrip tok0).drop 1).dropLast))
    else if (pyStrip tok0).head? = some '{' ∧ (pyStrip tok0).getLast? = some '}' then
      parseObjBody (fun t => parseValueF fuel t) (pyStrip (((pyStrip tok0).drop 1).dropLast))
    else if matchInt (pyStrip tok0) then .int (pyIntVal (pyStrip tok0))
    else if matchFloat (pyStrip tok0) then .float (pyStrip tok0)
    else .str (pyStrip tok0)

/-- `ToonDecoder.parse_value`. -/
def parse_value (tok : List Char) : Value :=
  parseValueF (tok.length + 1) tok

/-- One match of the decoder's header pattern
`^([A-Za-z0-9_]+)?\{([^}]+)\}$` (MULTILINE): optional name, raw interior,
match start and end offsets into the searched text. -/
structure HeaderMatch where
  name : Option (List Char)
  keysRaw : List Char
  mstart : Nat
  mend : Nat
deriving DecidableEq

/-- Attempt the header pattern at a line-start position.  The name class
cannot match `\x7b`, the interior `[^}]+` is forced to stop at the first
`\x7d` (it may span newlines), and `$` (MULTILINE) holds before a newline
or at the end of the text; the regex engine's backtracking cannot recover
from a failure of any of these, so this maximal-munch scan is faithful. -/
def tryHeader (cs : List Char) : Option (Option (List Char) × List Char × Nat) :=
  match cs.drop (cs.takeWhile isWordChar).length with
  | [] => none
  | c :: r2 =>
    if c = '{' then
      if (r2.takeWhile (fun d => d ≠ '}')).isEmpty then none
      else
        match r2.drop (r2.takeWhile (fun d => d ≠ '}')).length with
        | [] => none
        | c2 :: r3 =>
          if c2 = '}' then
            if r3.isEmpty ∨ r3.head? = some '\n' then
              some ((if (cs.takeWhile isWordChar).isEmpty then none
                  else some (cs.takeWhile isWordChar)),
                r2.takeWhile (fun d => d ≠ '}'),
                (cs.takeWhile isWordChar).length + 1 +
                  (r2.takeWhile (fun d => d ≠ '}')).length + 1)
            else none
          else none
    else none

/-- `re.finditer` scan for the header pattern: try each line-start
position left to right, resume after the end of each match.  The fuel is
the remaining text length; every step consumes at least one character. -/
def findHeadersAux : Nat → List Char → Nat → Bool → List HeaderMatch
  | 0, _, _, _ => []
  | _ + 1, [], _, _ => []
  | fuel + 1, c :: rest, pos, atLS =>
    if atLS then
      match tryHeader (c :: rest) with
      | some (nm, inner, len) =>
        ⟨nm, inner, pos, pos + len⟩ ::
          findHeadersAux fuel ((c :: rest).drop len) (pos + len) false
      | none => findHeadersAux fuel rest (pos + 1) (c == '\n')
    else findHeadersAux fuel rest (pos + 1) (c == '\n')

/-- All matches of the header pattern in the text, leftmost first. -/
def findHeaders (t : List Char) : List HeaderMatch :=
  findHeadersAux t.length t 0 true

/-- The result of `ToonDecoder.decode`: either a plain value, or (from the
multi-block branch) a dict keyed by each header's group 1, which is `None`
for an anonymous header and hence falls outside string-keyed `Value`
objects. -/
inductive Decoded where
  | value (v : Value)
  | keyed (kvs : List (Option (List Char) × Value))

/-- `dict(pairs)` built left to right with Python update semantics. -/
def dictFromPairs (ps : List (List Char × Value)) : List (List Char × Value) :=
  ps.foldl (fun d kv => dictInsert d kv.1 kv.2) []

/-- `dictInsert` for the optionally-named outer dict of the multi-block
branch. -/
def dictInsertO (d : List (Option (List Char) × Value)) (k : Option (List Char))
    (v : Value) : List (Option (List Char) × Value) :=
  if d.any (fun kv => kv.1 = k) then d.map (fun kv => if kv.1 = k then (k, v) else kv)
  else d ++ [(k, v)]

/-- `dict(pairs)` for the optionally-named outer dict. -/
def dictFromPairsO (ps : List (Option (List Char) × Value)) :
    List (Option (List Char) × Value) :=
  ps.foldl (fun d kv => dictInsertO d kv.1 kv.2) []

/-- `dict(zip(keys, map(cls.parse_value, vals)))` for one data line, with
`vals` its top-level comma split. -/
def rowObj (keys : List (List Char)) (ln : List Char) : List (List Char × Value) :=
  dictFromPairs (keys.zip ((split_top_level_commas ln).map parse_value))

/-- The value built from one block body in `ToonDecoder.decode` (both the
single-anonymous-block branch and the per-header loop build it this way):
non-empty stripped lines; one line gives an object, otherwise a list of
objects, one per line. -/
def sectionValue (keys : List (List Char)) (body : List Char) : Value :=
  match ((pySplitlines body).map pyStrip).filter (fun l => !l.isEmpty) with
  | [ln] => Value.obj (rowObj keys ln)
  | lns => Value.list (lns.map (fun ln => Value.obj (rowObj keys ln)))

/-- The `(name, value)` pairs of the multi-block loop of
`ToonDecoder.decode`: each section body runs from its header's end to the
next header's start (or the end of the text). -/
def decodeMultiPairs (t : List Char) (ms : List HeaderMatch) :
    List (Option (List Char) × Value) :=
  (ms.zip ((ms.map (fun m => m.mstart)).drop 1 ++ [t.length])).map (fun p =>
    (p.1.name, sectionValue ((pySplit ',' p.1.keysRaw).map pyStrip)
      (pyStrip ((t.take p.2).drop p.1.mend))))

/-- `ToonDecoder.decode`. -/
def decode (text : List Char) : Decoded :=
  if (pyStrip text).head? = some '[' ∧ (pyStrip text).getLast? = some ']' then
    .value (parse_value (pyStrip text))
  else
    match findHeaders (pyStrip text) with
    | [] => .value (parse_value (pyStrip text))
    | m :: rest =>
      if rest.isEmpty ∧ m.name = none then
        .value (sectionValue ((pySplit ',' m.keysRaw).map pyStrip)
          (pyStrip ((pyStrip text).drop m.mend)))
      else .keyed (dictFromPairsO (decodeMultiPairs (pyStrip text) (m :: rest)))

end ToonDecoder

/-- The data carried by the `ValueError` that `validate_toon` raises:
section name, 1-based line number, expected and actual column counts, and
the 50-character line preview of the message. -/
structure ValidationError where
  secName : List Char
  row : Nat
  expected : Nat
  got : Nat
  preview : List Char
deriving DecidableEq

/-- The validator's header pattern `^([a-z_]+)\{([^}]+)\}$` applied to one
stripped line (which contains no newline, so `$` means end of line):
returns the section name and raw key interior. -/
def vHeader (line : List Char) : Option (List Char × List Char) :=
  if (line.takeWhile (fun c => c.isLower || c = '_')).isEmpty then none
  else
    match line.drop (line.takeWhile (fun c => c.isLower || c = '_')).length with
    | [] => none
    | c :: r2 =>
      if c = '{' then
        if (r2.takeWhile (fun d => d ≠ '}')).isEmpty then none
        else
          match r2.drop (r2.takeWhile (fun d => d ≠ '}')).length with
          | [c2] =>
            if c2 = '}' then
              some (line.takeWhile (fun c => c.isLower || c = '_'),
                r2.takeWhile (fun d => d ≠ '}'))
            else none
          | _ => none
      else none

/-- The line loop of `validate_toon`: `i` is the 0-based index of the next
line, `sec` the active section with its expected column count (`None`
after a blank line or before any header). -/
def validateAux : List (List Char) → Nat → Option (List Char × Nat) →
    Except ValidationError Bool
  | [], _, _ => .ok true
  | l :: rest, i, sec =>
    if (pyStrip l).isEmpty then validateAux rest (i + 1) none
    else
      match vHeader (pyStrip l) with
      | some (nm, inner) => validateAux rest (i + 1) (some (nm, (pySplit ',' inner).length))
      | none =>
        match sec with
        | some (nm, exp) =>
          if (ToonDecoder.split_top_level_commas (pyStrip l)).length ≠ exp then
            .error ⟨nm, i + 1, exp,
              (ToonDecoder.split_top_level_commas (pyStrip l)).length, (pyStrip l).take 50⟩
          else validateAux rest (i + 1) sec
        | none => validateAux rest (i + 1) sec

/-- `validate_toon`. -/
def validate_toon (text : List Char) : Except ValidationError Bool :=
  if (pyStrip text).isEmpty then .ok true
  else validateAux (pySplitlines (pyStrip text)) 0 none

/-! ## Spec-side definitions

Definitions in this section are not part of the source embedding: they
state the vocabulary of the claims (safe value fragments for round-trip
statements, the quoting predicates in the spec's words, the validator's
"active section" state, the tokenizer's piece count) against which the
embedded functions are verified. -/

/-- A character that is neither one of the encoder's special characters
nor a quote, backslash or Python line boundary; strings of such
characters pass through every quoting and splitting layer unchanged. -/
def safeChar (c : Char) : Bool :=
  !(c = ',' || c = '[' || c = ']' || c = '{' || c = '}' ||
    c = '"' || c = '\\' || isLineBreakChar c)

/-- Neither end of the string is Python whitespace (so `strip` is the
identity on it). -/
def noEdgeSpace (s : List Char) : Bool :=
  (match s.head? with | some c => !isPySpace c | none => true) &&
  (match s.getLast? with | some c => !isPySpace c | none => true)

/-- A string value that survives the TOON round trip: non-empty, made of
safe characters, not starting or ending with whitespace. -/
def safeString (s : List Char) : Bool :=
  !s.isEmpty && s.all safeChar && noEdgeSpace s

/-- The scalar fragment used in the round-trip statements: `Null`,
`Bool`, `Int`, and safe `String`s. -/
def SafeScalar : Value → Bool
  | .null => true
  | .bool _ => true
  | .int _ => true
  | .str s => safeString s
  | _ => false

/-- A key made of header-identifier characters (so the encoded header
line re-parses to the same key list). -/
def wordKey (k : List Char) : Bool :=
  !k.isEmpty && k.all isWordChar

/-- Whether a string contains an odd number of double quotes. -/
def quoteParity : List Char → Bool
  | [] => false
  | c :: rest => if c = '"' then !quoteParity rest else quoteParity rest

/-- Claim C4's condition (a): the string starts with a digit or with `-`
immediately followed by a digit. -/
def specStartsNumeric : List Char → Bool
  | [] => false
  | c :: rest => c.isDigit || (c = '-' && ((rest.head?.map Char.isDigit).getD false))

/-- Claim C4's condition (b): the string contains one of the eight
special characters. -/
def specHasSpecial (s : List Char) : Bool :=
  s.any (fun c => c = ',' || c = '[' || c = ']' || c = '{' || c = '}' ||
    c = '\n' || c = '\r' || c = '"')

/-- Claim C4's condition (c): the lowercase form is one of the four
literal words. -/
def specLiteralLike (s : List Char) : Bool :=
  pyLower s = ("true".toList) || pyLower s = ("false".toList) ||
  pyLower s = ("null".toList) || pyLower s = ("none".toList)

/-- A list that the tabular renderer chokes on: its first element is a
dict with at least one key but some element is not a dict (so the lazily
evaluated `it.get` raises `AttributeError`). -/
def mixedTabular : List Value → Bool
  | [] => false
  | first :: rest =>
    match first with
    | .obj kvs0 => !kvs0.isEmpty && (Value.obj kvs0 :: rest).any (fun it => !it.isObj)
    | _ => false

/-- Claim-side characterization of exactly when `ToonEncoder.encode`
raises: a non-dict, non-list top level, or some rendered tabular block
(the top-level list itself, or a list value of a complex dict) whose
first element is a dict but that also holds a non-dict. -/
def encodeRaises : Value → Bool
  | .list items => mixedTabular items
  | .obj kvs =>
    kvs.any (fun kv => match kv.2 with
      | .list items => mixedTabular items
      | _ => false)
  | _ => true

/-- One step of the validator's section state, in the claim's words:
a blank line clears the active section, a header line opens one with its
declared column count, any other line leaves it unchanged. -/
def vStep (sec : Option (List Char × Nat)) (l : List Char) : Option (List Char × Nat) :=
  let line := pyStrip l
  if line.isEmpty then none
  else
    match vHeader line with
    | some (nm, inner) => some (nm, (pySplit ',' inner).length)
    | none => sec

/-- Claim-side test of the offending lines: non-blank, not a header, and,
while a section is active, a top-level comma split whose field count
differs from the declared column count. -/
def rowMismatch (sec : Option (List Char × Nat)) (l : List Char) : Bool :=
  let line := pyStrip l
  !line.isEmpty && (vHeader line).isNone &&
    (match sec with
     | some (_, exp) => decide ((ToonDecoder.split_top_level_commas line).length ≠ exp)
     | none => false)

/-- Claim-side test for whether any line of the input offends: walk the
lines, updating the active section by `vStep`, and report whether some
line is a `rowMismatch` against the section active when it is reached. -/
def mismatchSome : List (List Char) → Option (List Char × Nat) → Bool
  | [], _ => false
  | l :: rest, sec => rowMismatch sec l || mismatchSome rest (vStep sec l)

/-- Helper of `splitShape`: account for one leading non-splitting
character (it makes the final piece non-degenerate when no split comma
follows). -/
def tailShape (p : Nat × Bool) : Nat × Bool :=
  (p.1, p.1 == 0 || p.2)

/-- Claim-side shape of the tokenizer's output: the number of splitting
commas of the text, and whether at least one character follows the last
splitting comma (equivalently, whether the final piece is emitted).  The
state components mirror the scanner of the claim: escape flag, in-quotes
flag, bracket depth. -/
def splitShape : List Char → Bool → Bool → Nat → Nat × Bool
  | [], _, _, _ => (0, false)
  | c :: rest, esc, inQ, depth =>
    if esc then tailShape (splitShape rest false inQ depth)
    else if c = '\\' then tailShape (splitShape rest true inQ depth)
    else if c = '"' then tailShape (splitShape rest false (!inQ) depth)
    else if inQ then tailShape (splitShape rest false inQ depth)
    else if c = '[' ∨ c = '{' then tailShape (splitShape rest false inQ (depth + 1))
    else if c = ']' ∨ c = '}' then tailShape (splitShape rest false inQ (depth - 1))
    else if c = ',' ∧ depth = 0 then
      ((splitShape rest false inQ depth).1 + 1, (splitShape rest false inQ depth).2)
    else tailShape (splitShape rest false inQ depth)

/-- The number of splitting commas a text holds, per `splitShape`. -/
def topSplitCount (t : List Char) : Nat :=
  (splitShape t false false 0).1

/-- Whether the final piece of the top-level comma split is emitted, per
`splitShape`. -/
def finalPieceEmitted (t : List Char) : Bool :=
  (splitShape t false false 0).2

/-- Claim-side: the index of the first splitting comma of the text — the
first comma reached outside double quotes at zero bracket/brace depth,
scanning left to right with the escape flag. -/
def firstSplit : List Char → Bool → Bool → Nat → Option Nat
  | [], _, _, _ => none
  | c :: rest, esc, inQ, depth =>
    if esc then (firstSplit rest false inQ depth).map (fun i => i + 1)
    else if c = '\\' then (firstSplit rest true inQ depth).map (fun i => i + 1)
    else if c = '"' then (firstSplit rest false (!inQ) depth).map (fun i => i + 1)
    else if inQ then (firstSplit rest false inQ depth).map (fun i => i + 1)
    else if c = '[' ∨ c = '{' then (firstSplit rest false inQ (depth + 1)).map (fun i => i + 1)
    else if c = ']' ∨ c = '}' then (firstSplit rest false inQ (depth - 1)).map (fun i => i + 1)
    else if c = ',' ∧ depth = 0 then some 0
    else (firstSplit rest false inQ depth).map (fun i => i + 1)

/-- Claim-side tokenizer, by literal slices of the text: the piece before
the first splitting comma is the substring up to it, trimmed; the rest of
the pieces come from the substring after that comma (at a splitting comma
the scan state is the initial state again); with no splitting comma left,
the whole remaining substring is the final piece, emitted only when it is
non-empty.  Fuel decreases with each comma consumed. -/
def specPiecesF : Nat → List Char → List (List Char)
  | 0, _ => []
  | fuel + 1, t =>
    match firstSplit t false false 0 with
    | some i => pyStrip (t.take i) :: specPiecesF fuel (t.drop (i + 1))
    | none => if t.isEmpty then [] else [pyStrip t]

/-- The claim's tokenizer contract: the ordered, trimmed substrings of the
text between its splitting commas. -/
def specTopSplit (t : List Char) : List (List Char) :=
  specPiecesF (t.length + 1) t

/-! ## Helper lemmas: Python string primitives -/

theorem mem_of_head?_eq {α : Type} {l : List α} {c : α} (h : l.head? = some c) : c ∈ l := by
  cases l with
  | nil => simp at h
  | cons a t => simp at h; simp [h]

theorem mem_of_getLast?_eq {α : Type} {l : List α} {c : α} (h : l.getLast? = some c) : c ∈ l := by
  rw [← List.head?_reverse] at h
  exact (List.mem_reverse).1 (mem_of_head?_eq h)

theorem dropWhile_eq_self_of_head {p : Char → Bool} {l : List Char}
    (h : ∀ c, l.head? = some c → p c = false) : l.dropWhile p = l := by
  cases l with
  | nil => rfl
  | cons a t => rw [List.dropWhile_cons, h a rfl]; simp

theorem head?_dropWhile {p : Char → Bool} {l : List Char} {c : Char}
    (h : (l.dropWhile p).head? = some c) : p c = false := by
  induction l with
  | nil => simp [List.dropWhile] at h
  | cons a t ih =>
    rw [List.dropWhile_cons] at h
    by_cases hp : p a = true
    · simp [hp] at h; exact ih h
    · simp [hp] at h
      simp at hp
      rw [← h]; exact hp

theorem pyStrip_eq_self {l : List Char}
    (hh : ∀ c, l.head? = some c → isPySpace c = false)
    (hl : ∀ c, l.getLast? = some c → isPySpace c = false) : pyStrip l = l := by
  unfold pyStrip pyStripLeft pyStripRight
  rw [dropWhile_eq_self_of_head hh]
  rw [dropWhile_eq_self_of_head (by intro c hc; rw [List.head?_reverse] at hc; exact hl c hc)]
  exact List.reverse_reverse l

theorem strip_id_of_all_nonspace {l : List Char}
    (h : ∀ c ∈ l, isPySpace c = false) : pyStrip l = l :=
  pyStrip_eq_self (fun c hc => h c (mem_of_head?_eq hc))
    (fun c hc => h c (mem_of_getLast?_eq hc))

theorem pyStripLeft_eq_self_of_strip_id {l : List Char} (h : pyStrip l = l) :
    pyStripLeft l = l := by
  have h1 : (pyStripLeft l).Sublist l := List.dropWhile_sublist isPySpace
  have h2 : (pyStripRight (pyStripLeft l)).length ≤ (pyStripLeft l).length := by
    unfold pyStripRight
    calc ((pyStripLeft l).reverse.dropWhile isPySpace).reverse.length
        = ((pyStripLeft l).reverse.dropWhile isPySpace).length := by rw [List.length_reverse]
      _ ≤ (pyStripLeft l).reverse.length := (List.dropWhile_sublist isPySpace).length_le
      _ = (pyStripLeft l).length := List.length_reverse _
  have h3 : l.length ≤ (pyStripLeft l).length := by
    have := congrArg List.length h
    unfold pyStrip at this
    omega
  exact h1.eq_of_length (Nat.le_antisymm h1.length_le h3)

theorem pyStripRight_eq_self_of_strip_id {l : List Char} (h : pyStrip l = l) :
    pyStripRight l = l := by
  have h0 := pyStripLeft_eq_self_of_strip_id h
  unfold pyStrip at h
  rw [h0] at h
  exact h

theorem edge_nonspace_of_strip_id {l : List Char} (h : pyStrip l = l) :
    (∀ c, l.head? = some c → isPySpace c = false) ∧
    (∀ c, l.getLast? = some c → isPySpace c = false) := by
  constructor
  · intro c hc
    have h0 := pyStripLeft_eq_self_of_strip_id h
    unfold pyStripLeft at h0
    rw [← h0] at hc
    exact head?_dropWhile hc
  · intro c hc
    have h0 := pyStripRight_eq_self_of_strip_id h
    unfold pyStripRight at h0
    have h1 : l.reverse.dropWhile isPySpace = l.reverse := by
      have := congrArg List.reverse h0
      rwa [List.reverse_reverse] at this
    rw [← List.head?_reverse, ← h1] at hc
    exact head?_dropWhile hc

theorem pyStrip_cons_space {c : Char} (h : isPySpace c = true) (l : List Char) :
    pyStrip (c :: l) = pyStrip l := by
  unfold pyStrip pyStripLeft
  rw [List.dropWhile_cons, if_pos h]

theorem getLast?_ne_none_of_ne_nil {α : Type} {l : List α} (h : l ≠ []) :
    ∃ c, l.getLast? = some c := by
  cases l with
  | nil => exact absurd rfl h
  | cons a t =>
    rw [← List.head?_reverse]
    rcases hr : (a :: t).reverse with _ | ⟨b, r⟩
    · have := congrArg List.length hr; simp at this
    · exact ⟨b, by simp⟩

theorem getLast?_cons_of_ne_nil {α : Type} {a : α} {t : List α} (h : t ≠ []) :
    (a :: t).getLast? = t.getLast? := by
  have : a :: t = [a] ++ t := rfl
  rw [this, List.getLast?_append]
  obtain ⟨c, hc⟩ := getLast?_ne_none_of_ne_nil h
  rw [hc]; rfl

theorem getLast?_dropWhile_of_ne_nil {p : Char → Bool} {l : List Char}
    (h : l.dropWhile p ≠ []) : (l.dropWhile p).getLast? = l.getLast? := by
  induction l with
  | nil => simp [List.dropWhile] at h
  | cons a t ih =>
    rw [List.dropWhile_cons]
    by_cases hp : p a = true
    · rw [List.dropWhile_cons, if_pos hp] at h
      rw [if_pos hp, ih h]
      have ht : t ≠ [] := by
        intro he; rw [he] at h; simp [List.dropWhile] at h
      rw [getLast?_cons_of_ne_nil ht]
    · rw [if_neg hp]

theorem pyStrip_idem (x : List Char) : pyStrip (pyStrip x) = pyStrip x := by
  apply pyStrip_eq_self
  · intro c hc
    have hx : pyStrip x = (pyStripLeft x |>.reverse.dropWhile isPySpace).reverse := rfl
    rw [hx, List.head?_reverse] at hc
    by_cases hz : (pyStripLeft x).reverse.dropWhile isPySpace = []
    · rw [hz] at hc; simp at hc
    · rw [getLast?_dropWhile_of_ne_nil hz, List.getLast?_reverse] at hc
      exact head?_dropWhile hc
  · intro c hc
    have hx : pyStrip x = (pyStripLeft x |>.reverse.dropWhile isPySpace).reverse := rfl
    rw [hx, List.getLast?_reverse] at hc
    exact head?_dropWhile hc

/-! ## Helper lemmas: character classes, joins and digits -/

theorem isWordChar_ne {c : Char} (h : isWordChar c = true) (d : Char)
    (hd : isWordChar d = false) : c ≠ d := by
  intro he; rw [he, hd] at h; exact Bool.noConfusion h

theorem safeChar_spec {c : Char} (h : safeChar c = true) :
    c ≠ ',' ∧ c ≠ '[' ∧ c ≠ ']' ∧ c ≠ '{' ∧ c ≠ '}' ∧ c ≠ '\n' ∧ c ≠ '\r' ∧
    c ≠ '"' ∧ c ≠ '\\' := by
  refine ⟨?_, ?_, ?_, ?_, ?_, ?_, ?_, ?_, ?_⟩ <;>
    (intro he; subst he; exact absurd h (by decide))

theorem safeChar_of_word {c : Char} (h : isWordChar c = true) : safeChar c = true := by
  have h1 := isWordChar_ne h ',' (by decide)
  have h2 := isWordChar_ne h '[' (by decide)
  have h3 := isWordChar_ne h ']' (by decide)
  have h4 := isWordChar_ne h '{' (by decide)
  have h5 := isWordChar_ne h '}' (by decide)
  have h6 := isWordChar_ne h '"' (by decide)
  have h7 := isWordChar_ne h '\\' (by decide)
  have b1 := isWordChar_ne h '\n' (by decide)
  have b2 := isWordChar_ne h '\r' (by decide)
  have b3 := isWordChar_ne h '\x0b' (by decide)
  have b4 := isWordChar_ne h '\x0c' (by decide)
  have b5 := isWordChar_ne h '\x1c' (by decide)
  have b6 := isWordChar_ne h '\x1d' (by decide)
  have b7 := isWordChar_ne h '\x1e' (by decide)
  have b8 := isWordChar_ne h '\x85' (by decide)
  have b9 := isWordChar_ne h '\u2028' (by decide)
  have b10 := isWordChar_ne h '\u2029' (by decide)
  simp [safeChar, isLineBreakChar, h1, h2, h3, h4, h5, h6, h7,
    b1, b2, b3, b4, b5, b6, b7, b8, b9, b10]

theorem safeChar_not_break {c : Char} (h : safeChar c = true) :
    isLineBreakChar c = false := by
  cases h2 : isLineBreakChar c with
  | false => rfl
  | true =>
    exfalso
    unfold safeChar at h
    rw [h2] at h
    simp at h

theorem isPySpace_of_word {c : Char} (h : isWordChar c = true) : isPySpace c = false := by
  cases h2 : isPySpace c with
  | false => rfl
  | true =>
    exfalso
    simp [isPySpace] at h2
    rcases h2 with ((((((((((((((((((((((((((((rfl | rfl) | rfl) | rfl) | rfl) | rfl) | rfl) | rfl) | rfl) | rfl) | rfl) | rfl) | rfl) | rfl) | rfl) | rfl) | rfl) | rfl) | rfl) | rfl) | rfl) | rfl) | rfl) | rfl) | rfl) | rfl) | rfl) | rfl) | rfl) <;> exact absurd h (by decide)

theorem isPySpace_of_safe_digit {c : Char} (h : c.isDigit = true) : isPySpace c = false := by
  cases h2 : isPySpace c with
  | false => rfl
  | true =>
    exfalso
    simp [isPySpace] at h2
    rcases h2 with ((((((((((((((((((((((((((((rfl | rfl) | rfl) | rfl) | rfl) | rfl) | rfl) | rfl) | rfl) | rfl) | rfl) | rfl) | rfl) | rfl) | rfl) | rfl) | rfl) | rfl) | rfl) | rfl) | rfl) | rfl) | rfl) | rfl) | rfl) | rfl) | rfl) | rfl) | rfl) <;> exact absurd h (by decide)

theorem digitChar_facts (d : Nat) :
    (digitChar d).isDigit = true ∧ safeChar (digitChar d) = true ∧
    isPySpace (digitChar d) = false ∧ isWordChar (digitChar d) = true ∧
    (digitChar d) ≠ '"' ∧ (digitChar d) ≠ '-' ∧ (digitChar d) ≠ 'n' ∧
    (digitChar d) ≠ 't' ∧ (digitChar d) ≠ 'f' ∧ (digitChar d) ≠ '{' ∧
    (digitChar d) ≠ '[' ∧ (digitChar d) ≠ '\n' ∧ (digitChar d) ≠ '\r' := by
  unfold digitChar
  split_ifs <;> exact (by decide)

theorem digitVal_digitChar {d : Nat} (h : d < 10) : digitVal (digitChar d) = d := by
  unfold digitChar
  split_ifs with h0 h1 h2 h3 h4 h5 h6 h7 h8
  · rw [h0]; decide
  · rw [h1]; decide
  · rw [h2]; decide
  · rw [h3]; decide
  · rw [h4]; decide
  · rw [h5]; decide
  · rw [h6]; decide
  · rw [h7]; decide
  · rw [h8]; decide
  · have : d = 9 := by omega
    rw [this]; decide

theorem joinSep_cons_cons (sep x y : List Char) (rest : List (List Char)) :
    joinSep sep (x :: y :: rest) = x ++ sep ++ joinSep sep (y :: rest) := rfl

theorem mem_joinSep {sep : List Char} {ls : List (List Char)} {c : Char}
    (h : c ∈ joinSep sep ls) : c ∈ sep ∨ ∃ l ∈ ls, c ∈ l := by
  induction ls with
  | nil => simp [joinSep] at h
  | cons x rest ih =>
    cases rest with
    | nil =>
      simp only [joinSep] at h
      exact Or.inr ⟨x, by simp, h⟩
    | cons y rest2 =>
      rw [joinSep_cons_cons] at h
      rcases List.mem_append.1 h with h1 | h2
      · rcases List.mem_append.1 h1 with h3 | h4
        · exact Or.inr ⟨x, by simp, h3⟩
        · exact Or.inl h4
      · rcases ih h2 with h5 | ⟨l, hl, hc⟩
        · exact Or.inl h5
        · exact Or.inr ⟨l, List.mem_cons_of_mem x hl, hc⟩

theorem joinSep_ne_nil {sep : List Char} {ls : List (List Char)} (hne : ls ≠ [])
    (h : ∀ l ∈ ls, l ≠ []) : joinSep sep ls ≠ [] := by
  cases ls with
  | nil => exact absurd rfl hne
  | cons x rest =>
    cases rest with
    | nil => exact h x (by simp)
    | cons y rest2 =>
      rw [joinSep_cons_cons]
      intro he
      have hx := h x (by simp)
      rcases x with _ | ⟨a, t⟩
      · exact hx rfl
      · simp at he

theorem joinSep_head? {sep x : List Char} {ls : List (List Char)} (hx : x ≠ []) :
    (joinSep sep (x :: ls)).head? = x.head? := by
  cases ls with
  | nil => rfl
  | cons y rest =>
    rw [joinSep_cons_cons]
    rcases x with _ | ⟨a, t⟩
    · exact absurd rfl hx
    · simp

theorem joinSep_cons_of_ne_nil (sep x : List Char) {ls : List (List Char)} (h : ls ≠ []) :
    joinSep sep (x :: ls) = x ++ sep ++ joinSep sep ls := by
  cases ls with
  | nil => exact absurd rfl h
  | cons y r => rfl

theorem joinSep_getLast?_concat {sep x : List Char} {ls : List (List Char)} (hx : x ≠ []) :
    (joinSep sep (ls ++ [x])).getLast? = x.getLast? := by
  obtain ⟨c, hc⟩ := getLast?_ne_none_of_ne_nil hx
  induction ls with
  | nil => simp [joinSep]
  | cons a ls' ih =>
    rw [List.cons_append, joinSep_cons_of_ne_nil sep a (by simp), List.getLast?_append, ih, hc]
    rfl

/-! ## Helper lemmas: line splitting and comma splitting -/

theorem pySplitlinesAux_cons_other {c : Char} (h : isLineBreakChar c = false)
    (rest cur : List Char) :
    pySplitlinesAux (c :: rest) cur = pySplitlinesAux rest (c :: cur) := by
  have hr : c ≠ '\r' := by
    intro he
    rw [he] at h
    exact absurd h (by decide)
  rw [pySplitlinesAux.eq_def]
  simp [hr, h]

theorem pySplitlinesAux_cons_nl (rest cur : List Char) :
    pySplitlinesAux ('\n' :: rest) cur = cur.reverse :: pySplitlinesAux rest [] := by
  rw [pySplitlinesAux.eq_def]
  simp [isLineBreakChar]

theorem pySplitlinesAux_chunk {R : List Char} (h : ∀ c ∈ R, isLineBreakChar c = false) :
    ∀ rest cur, pySplitlinesAux (R ++ rest) cur = pySplitlinesAux rest (R.reverse ++ cur) := by
  induction R with
  | nil => intro rest cur; simp
  | cons c R' ih =>
    intro rest cur
    have hc := h c (by simp)
    have hR' : ∀ d ∈ R', isLineBreakChar d = false := fun d hd => h d (by simp [hd])
    show pySplitlinesAux (c :: (R' ++ rest)) cur = _
    rw [pySplitlinesAux_cons_other hc, ih hR' rest (c :: cur)]
    simp [List.append_assoc]

theorem pySplitlines_single {R : List Char} (h : ∀ c ∈ R, isLineBreakChar c = false)
    (hne : R ≠ []) : pySplitlines R = [R] := by
  unfold pySplitlines
  have h2 := pySplitlinesAux_chunk h [] []
  rw [List.append_nil] at h2
  rw [h2, pySplitlinesAux, List.append_nil]
  simp [hne]

theorem pySplitlines_join {rows : List (List Char)} (hne : rows ≠ [])
    (h : ∀ r ∈ rows, r ≠ [] ∧ ∀ c ∈ r, isLineBreakChar c = false) :
    pySplitlines (joinSep ['\n'] rows) = rows := by
  induction rows with
  | nil => cases hne rfl
  | cons r rest ih =>
    obtain ⟨hr1, hr2⟩ := h r (by simp)
    cases rest with
    | nil => exact pySplitlines_single hr2 hr1
    | cons r2 rest2 =>
      rw [joinSep_cons_of_ne_nil _ _ (by simp)]
      unfold pySplitlines
      rw [List.append_assoc, pySplitlinesAux_chunk hr2]
      show pySplitlinesAux ('\n' :: joinSep ['\n'] (r2 :: rest2)) (r.reverse ++ []) = _
      rw [pySplitlinesAux_cons_nl, List.append_nil, List.reverse_reverse]
      have := ih (by simp) (fun x hx => h x (by simp [hx]))
      unfold pySplitlines at this
      rw [this]

theorem pySplitAux_chunk {sep : Char} {K : List Char} (h : ∀ c ∈ K, c ≠ sep) :
    ∀ rest cur, pySplitAux sep (K ++ rest) cur = pySplitAux sep rest (K.reverse ++ cur) := by
  induction K with
  | nil => intro rest cur; simp
  | cons c K' ih =>
    intro rest cur
    have hc := h c (by simp)
    show pySplitAux sep (c :: (K' ++ rest)) cur = _
    rw [pySplitAux, if_neg hc, ih (fun d hd => h d (by simp [hd])) rest (c :: cur)]
    simp [List.append_assoc]

theorem pySplit_join {sep : Char} {keys : List (List Char)} (hne : keys ≠ [])
    (h : ∀ k ∈ keys, ∀ c ∈ k, c ≠ sep) : pySplit sep (joinSep [sep] keys) = keys := by
  induction keys with
  | nil => cases hne rfl
  | cons k rest ih =>
    cases rest with
    | nil =>
      show pySplit sep k = [k]
      unfold pySplit
      have h2 := pySplitAux_chunk (h k (by simp)) [] []
      rw [List.append_nil] at h2
      rw [h2, pySplitAux, List.append_nil, List.reverse_reverse]
    | cons k2 rest2 =>
      rw [joinSep_cons_of_ne_nil _ _ (by simp)]
      unfold pySplit
      rw [List.append_assoc, pySplitAux_chunk (h k (by simp))]
      show pySplitAux sep (sep :: joinSep [sep] (k2 :: rest2)) (k.reverse ++ []) = _
      rw [pySplitAux, if_pos rfl, List.append_nil, List.reverse_reverse]
      have := ih (by simp) (fun x hx => h x (by simp [hx]))
      unfold pySplit at this
      rw [this]

/-! ## Helper lemmas: the top-level comma tokenizer -/

theorem splitAux_chunk {t : List Char} (h : ∀ c ∈ t, safeChar c = true ∨ c = '"') :
    ∀ rest inQ cur, ToonDecoder.splitAux (t ++ rest) false inQ 0 cur =
      ToonDecoder.splitAux rest false (xor inQ (quoteParity t)) 0 (t.reverse ++ cur) := by
  induction t with
  | nil => intro rest inQ cur; simp [quoteParity]
  | cons c t' ih =>
    intro rest inQ cur
    have ih' := ih (fun d hd => h d (by simp [hd]))
    rcases h c (by simp) with hs | hq
    · obtain ⟨h1, h2, h3, h4, h5, h6, h7, h8, h9⟩ := safeChar_spec hs
      show ToonDecoder.splitAux (c :: (t' ++ rest)) false inQ 0 cur = _
      rw [ToonDecoder.splitAux]
      rw [if_neg (by simp), if_neg h9, if_neg h8]
      have hqp : quoteParity (c :: t') = quoteParity t' := by
        rw [quoteParity, if_neg h8]
      cases inQ with
      | true =>
        rw [if_pos rfl, ih' rest true (c :: cur), hqp]
        simp [List.append_assoc]
      | false =>
        rw [if_neg (by simp), if_neg (by simp [h2, h4]), if_neg (by simp [h3, h5]),
          if_neg (by simp [h1]), ih' rest false (c :: cur), hqp]
        simp [List.append_assoc]
    · subst hq
      show ToonDecoder.splitAux ('"' :: (t' ++ rest)) false inQ 0 cur = _
      rw [ToonDecoder.splitAux]
      rw [if_neg (by simp), if_neg (by decide), if_pos rfl]
      rw [ih' rest (!inQ) ('"' :: cur)]
      have hqp : quoteParity ('"' :: t') = !quoteParity t' := by
        rw [quoteParity, if_pos rfl]
      rw [hqp]
      have hx : xor (!inQ) (quoteParity t') = xor inQ (!quoteParity t') := by
        cases inQ <;> cases quoteParity t' <;> rfl
      rw [hx]
      simp [List.append_assoc]

theorem split_join_clean {toks : List (List Char)} (hne : toks ≠ [])
    (h : ∀ t ∈ toks, t ≠ [] ∧ (∀ c ∈ t, safeChar c = true ∨ c = '"') ∧
      quoteParity t = false ∧ pyStrip t = t) :
    ToonDecoder.split_top_level_commas (joinSep [','] toks) = toks := by
  induction toks with
  | nil => cases hne rfl
  | cons t rest ih =>
    obtain ⟨ht1, ht2, ht3, ht4⟩ := h t (by simp)
    cases rest with
    | nil =>
      show ToonDecoder.split_top_level_commas t = [t]
      unfold ToonDecoder.split_top_level_commas
      have h2 := splitAux_chunk ht2 [] false []
      rw [List.append_nil] at h2
      rw [h2, ToonDecoder.splitAux, List.append_nil]
      have : t.reverse.isEmpty = false := by
        rcases t with _ | ⟨a, u⟩
        · cases ht1 rfl
        · simp
      rw [this]
      simp [List.reverse_reverse, ht4]
    | cons t2 rest2 =>
      rw [joinSep_cons_of_ne_nil _ _ (by simp)]
      unfold ToonDecoder.split_top_level_commas
      rw [List.append_assoc, splitAux_chunk ht2, ht3]
      show ToonDecoder.splitAux (',' :: joinSep [','] (t2 :: rest2)) false false 0
        (t.reverse ++ []) = _
      rw [ToonDecoder.splitAux]
      rw [if_neg (by simp), if_neg (by decide), if_neg (by decide), if_neg (by simp),
        if_neg (by decide), if_neg (by decide), if_pos (by simp)]
      rw [List.append_nil, List.reverse_reverse, ht4]
      have := ih (by simp) (fun x hx => h x (by simp [hx]))
      unfold ToonDecoder.split_top_level_commas at this
      rw [this]

/-! ## Helper lemmas: digits, quotes and safe tokens -/

theorem ne_of_head?_ne {α : Type} {l1 l2 : List α} (h : l1.head? ≠ l2.head?) : l1 ≠ l2 :=
  fun he => h (he ▸ rfl)

theorem quoteParity_append_no_quote {s : List Char} (h : ∀ c ∈ s, c ≠ '"') :
    ∀ r, quoteParity (s ++ r) = quoteParity r := by
  induction s with
  | nil => intro r; rfl
  | cons c t ih =>
    intro r
    show quoteParity (c :: (t ++ r)) = _
    rw [quoteParity, if_neg (h c (by simp)), ih (fun d hd => h d (by simp [hd]))]

theorem quoteParity_no_quote {s : List Char} (h : ∀ c ∈ s, c ≠ '"') :
    quoteParity s = false := by
  have := quoteParity_append_no_quote h []
  rwa [List.append_nil] at this

theorem unescapeQuotes_cons_other {c : Char} (h : c ≠ '\\') (rest : List Char) :
    unescapeQuotes (c :: rest) = c :: unescapeQuotes rest := by
  rw [unescapeQuotes.eq_def]
  simp [h]

theorem unescape_no_backslash {s : List Char} (h : ∀ c ∈ s, c ≠ '\\') :
    unescapeQuotes s = s := by
  induction s with
  | nil => rfl
  | cons c t ih =>
    rw [unescapeQuotes_cons_other (h c (by simp)), ih (fun d hd => h d (by simp [hd]))]

theorem digitChar_toLower (d : Nat) : Char.toLower (digitChar d) = digitChar d := by
  unfold digitChar
  split_ifs <;> exact (by decide)

theorem strip_id_of_noEdge {s : List Char} (h : noEdgeSpace s = true) : pyStrip s = s := by
  unfold noEdgeSpace at h
  rw [Bool.and_eq_true] at h
  apply pyStrip_eq_self
  · intro c hc
    have h1 := h.1
    rw [hc] at h1
    simpa using h1
  · intro c hc
    have h2 := h.2
    rw [hc] at h2
    simpa using h2

theorem no_special_of_safe {s : List Char} (h : ∀ c ∈ s, safeChar c = true) :
    ToonEncoder.specialChars.any (fun c => s.contains c) = false := by
  rw [List.any_eq_false]
  intro x hx hc
  have hm : x ∈ s := List.elem_iff.1 hc
  have hs := h x hm
  simp [ToonEncoder.specialChars] at hx
  rcases hx with rfl | rfl | rfl | rfl | rfl | rfl | rfl | rfl <;> simp [safeChar, isLineBreakChar] at hs

theorem natDigitsF_spec : ∀ fuel n, n + 1 ≤ fuel →
    natDigitsF fuel n ≠ [] ∧ (∀ c ∈ natDigitsF fuel n, ∃ d, d < 10 ∧ c = digitChar d) ∧
    digitsVal (natDigitsF fuel n) = n := by
  intro fuel
  induction fuel with
  | zero => intro n hn; omega
  | succ f ih =>
    intro n hn
    rw [natDigitsF]
    by_cases h10 : n < 10
    · rw [if_pos h10]
      refine ⟨by simp, ?_, ?_⟩
      · intro c hc
        simp at hc
        exact ⟨n, h10, hc⟩
      · show digitsVal [digitChar n] = n
        unfold digitsVal
        simp [digitVal_digitChar h10]
    · rw [if_neg h10]
      have hrec := ih (n / 10) (by omega)
      refine ⟨by simp [hrec.1], ?_, ?_⟩
      · intro c hc
        rcases List.mem_append.1 hc with h1 | h2
        · exact hrec.2.1 c h1
        · simp at h2
          exact ⟨n % 10, by omega, h2⟩
      · unfold digitsVal
        rw [List.foldl_append]
        have h1 : digitsVal (natDigitsF f (n / 10)) = n / 10 := hrec.2.2
        unfold digitsVal at h1
        rw [h1]
        show 10 * (n / 10) + digitVal (digitChar (n % 10)) = n
        rw [digitVal_digitChar (by omega)]
        omega

theorem natToDigits_spec (n : Nat) :
    natToDigits n ≠ [] ∧ (∀ c ∈ natToDigits n, ∃ d, d < 10 ∧ c = digitChar d) ∧
    digitsVal (natToDigits n) = n :=
  natDigitsF_spec (n + 1) n (by omega)

theorem intStr_chars {n : Int} {c : Char} (h : c ∈ intStr n) :
    safeChar c = true ∧ isPySpace c = false ∧ Char.toLower c = c ∧
    c ≠ '"' ∧ c ≠ '[' ∧ c ≠ '{' ∧ c ≠ 'n' ∧ c ≠ 't' ∧ c ≠ 'f' ∧
    c ≠ '\n' ∧ c ≠ '\r' ∧ c ≠ '\\' := by
  have hdig : ∀ m : Nat, c ∈ natToDigits m →
      safeChar c = true ∧ isPySpace c = false ∧ Char.toLower c = c ∧
      c ≠ '"' ∧ c ≠ '[' ∧ c ≠ '{' ∧ c ≠ 'n' ∧ c ≠ 't' ∧ c ≠ 'f' ∧
      c ≠ '\n' ∧ c ≠ '\r' ∧ c ≠ '\\' := by
    intro m hm
    obtain ⟨d, _, rfl⟩ := (natToDigits_spec m).2.1 c hm
    obtain ⟨hdg, hsafe, hsp, hw, hq, hminus, hn', ht', hf', hbr, hsq, hnl, hcr⟩ :=
      digitChar_facts d
    exact ⟨hsafe, hsp, digitChar_toLower d, hq, hsq, hbr, hn', ht', hf', hnl, hcr,
      isWordChar_ne hw '\\' (by decide)⟩
  unfold intStr at h
  by_cases hneg : n < 0
  · rw [if_pos hneg] at h
    rcases List.mem_cons.1 h with rfl | hm
    · exact ⟨by decide, by decide, by decide, by decide, by decide, by decide,
        by decide, by decide, by decide, by decide, by decide, by decide⟩
    · exact hdig n.natAbs hm
  · rw [if_neg hneg] at h
    exact hdig n.natAbs h

theorem isDigits_natToDigits (n : Nat) : ToonDecoder.isDigits (natToDigits n) = true := by
  unfold ToonDecoder.isDigits
  obtain ⟨h1, h2, _⟩ := natToDigits_spec n
  rw [Bool.and_eq_true, List.all_eq_true]
  constructor
  · simp [h1]
  · intro c hc
    obtain ⟨d, _, rfl⟩ := h2 c hc
    exact (digitChar_facts d).1

theorem digitsVal_eq_foldl (s : List Char) :
    digitsVal s = s.foldl (fun a c => 10 * a + digitVal c) 0 := rfl

theorem intStr_matchInt (n : Int) :
    ToonDecoder.matchInt (intStr n) = true ∧ ToonDecoder.pyIntVal (intStr n) = n := by
  unfold intStr
  by_cases hneg : n < 0
  · rw [if_pos hneg]
    constructor
    · rw [ToonDecoder.matchInt, if_pos rfl]
      exact isDigits_natToDigits n.natAbs
    · show ToonDecoder.pyIntVal ('-' :: natToDigits n.natAbs) = n
      have h1 : ToonDecoder.pyIntVal ('-' :: natToDigits n.natAbs)
          = -(digitsVal (natToDigits n.natAbs) : Int) := by
        rw [ToonDecoder.pyIntVal]
        simp
      rw [h1, (natToDigits_spec n.natAbs).2.2]
      omega
  · rw [if_neg hneg]
    obtain ⟨hne, hmem, hval⟩ := natToDigits_spec n.natAbs
    rcases hd : natToDigits n.natAbs with _ | ⟨c, t⟩
    · exact absurd hd hne
    · have hcdig : c.isDigit = true := by
        obtain ⟨d, _, rfl⟩ := hmem c (by rw [hd]; simp)
        exact (digitChar_facts d).1
      have hcne : c ≠ '-' := by
        intro he; rw [he] at hcdig; exact Bool.noConfusion hcdig
      constructor
      · rw [ToonDecoder.matchInt, if_neg hcne, ← hd]
        exact isDigits_natToDigits n.natAbs
      · rw [ToonDecoder.pyIntVal, if_neg hcne, ← hd, hval]
        omega


/-! ## Helper lemmas: safe scalar tokens round-trip through the codec -/

theorem matchIntFloat_false {s : List Char} (h : ToonEncoder.numLikeStart s = false) :
    ToonDecoder.matchInt s = false ∧ ToonDecoder.matchFloat s = false := by
  cases s with
  | nil => exact ⟨by decide, by decide⟩
  | cons c rest =>
    rw [ToonEncoder.numLikeStart] at h
    rw [Bool.or_eq_false_iff] at h
    obtain ⟨hd, hm⟩ := h
    constructor
    · rw [ToonDecoder.matchInt]
      by_cases hc : c = '-'
      · rw [if_pos hc]
        subst hc
        simp at hm
        cases rest with
        | nil => decide
        | cons c2 r =>
          simp at hm
          unfold ToonDecoder.isDigits
          simp [hm]
      · rw [if_neg hc]
        unfold ToonDecoder.isDigits
        simp [hd]
    · rw [ToonDecoder.matchFloat]
      by_cases hc : c = '-'
      · subst hc
        simp at hm
        rw [if_pos rfl]
        cases rest with
        | nil => decide
        | cons c2 r =>
          simp at hm
          unfold ToonDecoder.matchFloatCore
          rw [List.takeWhile_cons, if_neg (by simp [hm])]
          simp
      · rw [if_neg hc]
        unfold ToonDecoder.matchFloatCore
        rw [List.takeWhile_cons, if_neg (by simp [hd])]
        simp

theorem pyLower_headed_ne (w : List Char) (d c : Char) {s : List Char}
    (hw : w.head? = some d) (hne : Char.toLower c ≠ d) : pyLower (c :: s) ≠ w := by
  intro he
  have h2 := congrArg List.head? he
  rw [hw] at h2
  simp [pyLower] at h2
  exact hne h2

theorem quoted_getLast? (s : List Char) : ('"' :: s ++ ['"']).getLast? = some '"' := by
  rw [show ('"' :: s ++ ['"']) = ('"' :: s) ++ ['"'] from rfl, List.getLast?_concat]

theorem quoted_strip (s : List Char) : pyStrip ('"' :: s ++ ['"']) = '"' :: s ++ ['"'] := by
  apply pyStrip_eq_self
  · intro c hc
    simp at hc
    rw [← hc]; decide
  · intro c hc
    rw [quoted_getLast? s] at hc
    simp at hc
    rw [← hc]; decide

theorem encode_str_cases {s : List Char} (hsafe : ∀ c ∈ s, safeChar c = true) :
    ToonEncoder.encode_value (.str s) = '"' :: s ++ ['"'] ∨
    (ToonEncoder.encode_value (.str s) = s ∧ ToonEncoder.numLikeStart s = false ∧
      pyLower s ≠ ("true".toList) ∧ pyLower s ≠ ("false".toList) ∧
      pyLower s ≠ ("null".toList) ∧ pyLower s ≠ ("none".toList)) := by
  rw [ToonEncoder.encode_value]
  by_cases hA : ToonEncoder.numLikeStart s = true
  · rw [if_pos hA]
    exact Or.inl rfl
  · rw [if_neg hA, if_neg (by rw [no_special_of_safe hsafe]; simp)]
    by_cases hC : pyLower s = ("true".toList) ∨ pyLower s = ("false".toList) ∨
        pyLower s = ("null".toList) ∨ pyLower s = ("none".toList)
    · rw [if_pos hC]
      exact Or.inl rfl
    · rw [if_neg hC]
      push_neg at hC
      exact Or.inr ⟨rfl, by simpa using hA, hC.1, hC.2.1, hC.2.2.1, hC.2.2.2⟩

theorem encTok_clean {v : Value} (h : SafeScalar v = true) :
    ToonEncoder.encode_value v ≠ [] ∧
    (∀ c ∈ ToonEncoder.encode_value v, safeChar c = true ∨ c = '"') ∧
    quoteParity (ToonEncoder.encode_value v) = false ∧
    pyStrip (ToonEncoder.encode_value v) = ToonEncoder.encode_value v := by
  cases v with
  | null => exact ⟨by decide, by decide, by decide, by decide⟩
  | bool b => cases b <;> exact ⟨by decide, by decide, by decide, by decide⟩
  | float s => simp [SafeScalar] at h
  | list xs => simp [SafeScalar] at h
  | obj kvs => simp [SafeScalar] at h
  | int n =>
    have he : ToonEncoder.encode_value (.int n) = intStr n := rfl
    rw [he]
    have hne : intStr n ≠ [] := by
      unfold intStr
      by_cases hneg : n < 0
      · rw [if_pos hneg]; simp
      · rw [if_neg hneg]; exact (natToDigits_spec n.natAbs).1
    refine ⟨hne, ?_, ?_, ?_⟩
    · intro c hc
      exact Or.inl (intStr_chars hc).1
    · exact quoteParity_no_quote (fun c hc => (intStr_chars hc).2.2.2.1)
    · exact strip_id_of_all_nonspace (fun c hc => (intStr_chars hc).2.1)
  | str s =>
    have hsstr : safeString s = true := h
    unfold safeString at hsstr
    rw [Bool.and_eq_true, Bool.and_eq_true] at hsstr
    obtain ⟨⟨hne0, hall⟩, hedge⟩ := hsstr
    rw [List.all_eq_true] at hall
    have hne : s ≠ [] := by simpa using hne0
    rcases encode_str_cases hall with hq | ⟨hb, _⟩
    · rw [hq]
      refine ⟨by simp, ?_, ?_, quoted_strip s⟩
      · intro c hc
        simp at hc
        rcases hc with rfl | hc2
        · exact Or.inr rfl
        · rcases hc2 with hc3 | rfl
          · exact Or.inl (hall c hc3)
          · exact Or.inr rfl
      · have hqp : quoteParity ('"' :: s ++ ['"']) = !quoteParity (s ++ ['"']) := rfl
        rw [hqp,
          quoteParity_append_no_quote (fun c hc => (safeChar_spec (hall c hc)).2.2.2.2.2.2.2.1)]
        decide
    · rw [hb]
      exact ⟨hne, fun c hc => Or.inl (hall c hc), 
        quoteParity_no_quote (fun c hc => (safeChar_spec (hall c hc)).2.2.2.2.2.2.2.1),
        strip_id_of_noEdge hedge⟩

theorem head_cond_ne {t : List Char} {c q q2 : Char} (hh : t.head? = some c) (hne : c ≠ q) :
    ¬(t.head? = some q ∧ t.getLast? = some q2) := by
  rintro ⟨h1, _⟩
  rw [hh] at h1
  exact hne (by injection h1)

theorem parse_encTok {v : Value} (h : SafeScalar v = true) (fuel : Nat) :
    ToonDecoder.parseValueF (fuel + 1) (ToonEncoder.encode_value v) = v := by
  cases v with
  | null =>
    have he : ToonEncoder.encode_value Value.null = ("null".toList) := by
      rw [ToonEncoder.encode_value]
    rw [he, ToonDecoder.parseValueF]
    rfl
  | bool b =>
    cases b with
    | false =>
      have he : ToonEncoder.encode_value (Value.bool false) = ("false".toList) := by
        rw [ToonEncoder.encode_value]
        simp
      rw [he, ToonDecoder.parseValueF]
      rfl
    | true =>
      have he : ToonEncoder.encode_value (Value.bool true) = ("true".toList) := by
        rw [ToonEncoder.encode_value]
        simp
      rw [he, ToonDecoder.parseValueF]
      rfl
  | float s => simp [SafeScalar] at h
  | list xs => simp [SafeScalar] at h
  | obj kvs => simp [SafeScalar] at h
  | int n =>
    have he : ToonEncoder.encode_value (.int n) = intStr n := by
      rw [ToonEncoder.encode_value]
    rw [he, ToonDecoder.parseValueF]
    have hstrip : pyStrip (intStr n) = intStr n :=
      strip_id_of_all_nonspace (fun c hc => (intStr_chars hc).2.1)
    rw [hstrip]
    rcases hshape : intStr n with _ | ⟨c0, t0⟩
    · exact absurd hshape (by
        unfold intStr
        by_cases hneg : n < 0
        · rw [if_pos hneg]; simp
        · rw [if_neg hneg]; exact (natToDigits_spec n.natAbs).1)
    · have hc0 : c0 ∈ intStr n := by rw [hshape]; simp
      obtain ⟨_, _, hlow, hq, hbr, hcb, hn', ht', hf', _, _, _⟩ := intStr_chars hc0
      have hn2 : Char.toLower c0 ≠ 'n' := by rw [hlow]; exact hn'
      have ht2 : Char.toLower c0 ≠ 't' := by rw [hlow]; exact ht'
      have hf2 : Char.toLower c0 ≠ 'f' := by rw [hlow]; exact hf'
      rw [if_neg (by simp)]
      rw [if_neg (by
        rintro (h2 | h2)
        · exact pyLower_headed_ne ("null".toList) 'n' c0 rfl hn2 h2
        · exact pyLower_headed_ne ("none".toList) 'n' c0 rfl hn2 h2)]
      rw [if_neg (pyLower_headed_ne ("true".toList) 't' c0 rfl ht2)]
      rw [if_neg (pyLower_headed_ne ("false".toList) 'f' c0 rfl hf2)]
      rw [if_neg (head_cond_ne (by simp) hq)]
      rw [if_neg (head_cond_ne (by simp) hbr)]
      rw [if_neg (head_cond_ne (by simp) hcb)]
      rw [← hshape]
      rw [if_pos (intStr_matchInt n).1, (intStr_matchInt n).2]
  | str s =>
    have hsstr : safeString s = true := h
    unfold safeString at hsstr
    rw [Bool.and_eq_true, Bool.and_eq_true] at hsstr
    obtain ⟨⟨hne0, hall⟩, hedge⟩ := hsstr
    rw [List.all_eq_true] at hall
    have hne : s ≠ [] := by simpa using hne0
    rcases encode_str_cases hall with hquo | ⟨hb, hA, hlt, hlf, hln, hlo⟩
    · rw [hquo, ToonDecoder.parseValueF, quoted_strip s]
      simp only [List.cons_append]
      rw [if_neg (by simp)]
      rw [if_neg (by
        rintro (h2 | h2)
        · exact pyLower_headed_ne ("null".toList) 'n' '"' rfl (by decide) h2
        · exact pyLower_headed_ne ("none".toList) 'n' '"' rfl (by decide) h2)]
      rw [if_neg (pyLower_headed_ne ("true".toList) 't' '"' rfl (by decide))]
      rw [if_neg (pyLower_headed_ne ("false".toList) 'f' '"' rfl (by decide))]
      rw [if_pos ⟨rfl, (by rw [← List.cons_append]; exact quoted_getLast? s :
        ('"' :: (s ++ ['"'])).getLast? = some '"')⟩]
      have hdrop : (('"' :: (s ++ ['"'])).drop 1).dropLast = s := by
        rw [show ('"' :: (s ++ ['"'])).drop 1 = s ++ ['"'] by simp, List.dropLast_concat]
      rw [hdrop,
        unescape_no_backslash (fun c hc => (safeChar_spec (hall c hc)).2.2.2.2.2.2.2.2)]
    · rw [hb, ToonDecoder.parseValueF, strip_id_of_noEdge hedge]
      rcases hshape : s with _ | ⟨c0, t0⟩
      · exact absurd hshape hne
      · have hc0 : c0 ∈ s := by rw [hshape]; simp
        obtain ⟨_, hbrk, _, hbrc, _, _, _, hqt, _⟩ := safeChar_spec (hall c0 hc0)
        rw [← hshape]
        rw [if_neg (by rw [hshape]; simp)]
        rw [if_neg (by rintro (h2 | h2); exacts [hln h2, hlo h2])]
        rw [if_neg hlt]
        rw [if_neg hlf]
        rw [if_neg (head_cond_ne (by rw [hshape]; rfl) hqt)]
        rw [if_neg (head_cond_ne (by rw [hshape]; rfl) hbrk)]
        rw [if_neg (head_cond_ne (by rw [hshape]; rfl) hbrc)]
        rw [if_neg (by simp [(matchIntFloat_false hA).1])]
        rw [if_neg (by simp [(matchIntFloat_false hA).2])]

/-! ## Helper lemmas: header matching and the finditer scan -/

theorem takeWhile_append_stop {p : Char → Bool} {K : List Char} {y : Char} {r : List Char}
    (hK : ∀ c ∈ K, p c = true) (hy : p y = false) : (K ++ y :: r).takeWhile p = K := by
  induction K with
  | nil =>
    rw [List.nil_append, List.takeWhile_cons, hy]
    simp
  | cons a t ih =>
    rw [List.cons_append, List.takeWhile_cons, hK a (by simp)]
    simp only [if_pos]
    rw [ih (fun d hd => hK d (by simp [hd]))]

theorem tryHeader_none_of_no_brace {cs : List Char} (h : ∀ c ∈ cs, c ≠ '{') :
    ToonDecoder.tryHeader cs = none := by
  unfold ToonDecoder.tryHeader
  rcases hd : cs.drop (cs.takeWhile isWordChar).length with _ | ⟨c, r2⟩
  · rfl
  · have hc : c ∈ cs := List.drop_subset _ _ (by rw [hd]; simp)
    simp [h c hc]

theorem findHeadersAux_step_match {fuel : Nat} {c : Char} {rest : List Char} {pos : Nat}
    {nm : Option (List Char)} {inner : List Char} {len : Nat}
    (h : ToonDecoder.tryHeader (c :: rest) = some (nm, inner, len)) :
    ToonDecoder.findHeadersAux (fuel + 1) (c :: rest) pos true =
      ⟨nm, inner, pos, pos + len⟩ ::
        ToonDecoder.findHeadersAux fuel ((c :: rest).drop len) (pos + len) false := by
  rw [ToonDecoder.findHeadersAux, if_pos rfl, h]

theorem findHeadersAux_step_nomatch {fuel : Nat} {c : Char} {rest : List Char} {pos : Nat}
    (h : ToonDecoder.tryHeader (c :: rest) = none) :
    ToonDecoder.findHeadersAux (fuel + 1) (c :: rest) pos true =
      ToonDecoder.findHeadersAux fuel rest (pos + 1) (c == '\n') := by
  rw [ToonDecoder.findHeadersAux, if_pos rfl, h]

theorem findHeadersAux_step_notLS (fuel : Nat) (c : Char) (rest : List Char) (pos : Nat) :
    ToonDecoder.findHeadersAux (fuel + 1) (c :: rest) pos false =
      ToonDecoder.findHeadersAux fuel rest (pos + 1) (c == '\n') := by
  rw [ToonDecoder.findHeadersAux, if_neg (by simp)]

theorem findHeadersAux_nil_of_no_brace {cs : List Char} (h : ∀ c ∈ cs, c ≠ '{') :
    ∀ fuel pos ls, ToonDecoder.findHeadersAux fuel cs pos ls = [] := by
  induction cs with
  | nil => intro fuel pos ls; cases fuel <;> rfl
  | cons c rest ih =>
    intro fuel pos ls
    have hrest : ∀ d ∈ rest, d ≠ '{' := fun d hd => h d (by simp [hd])
    cases fuel with
    | zero => rfl
    | succ f =>
      cases ls with
      | true =>
        rw [findHeadersAux_step_nomatch (tryHeader_none_of_no_brace h)]
        exact ih hrest f _ _
      | false =>
        rw [findHeadersAux_step_notLS]
        exact ih hrest f _ _

theorem tryHeader_block {K rest : List Char} (hK : K ≠ []) (hKc : ∀ c ∈ K, c ≠ '}') :
    ToonDecoder.tryHeader ('{' :: (K ++ '}' :: '\n' :: rest)) =
      some (none, K, K.length + 2) := by
  unfold ToonDecoder.tryHeader
  have hw : ('{' :: (K ++ '}' :: '\n' :: rest)).takeWhile isWordChar = [] := by
    rw [List.takeWhile_cons, if_neg (by decide)]
  rw [hw]
  simp only [List.length_nil, List.drop_zero]
  rw [if_pos trivial]
  have hinner : (K ++ '}' :: '\n' :: rest).takeWhile (fun d => d ≠ '}') = K := by
    apply takeWhile_append_stop
    · intro d hd; simp [hKc d hd]
    · simp
  rw [hinner]
  rw [if_neg (by simp [hK])]
  rw [show (K ++ '}' :: '\n' :: rest).drop K.length = '}' :: '\n' :: rest from
    List.drop_left K _]
  simp
  omega

theorem findHeaders_block {K R : List Char} (hK : K ≠ []) (hKc : ∀ c ∈ K, c ≠ '}')
    (hR : ∀ c ∈ R, c ≠ '{') :
    ToonDecoder.findHeaders ('{' :: (K ++ '}' :: '\n' :: R)) =
      [⟨none, K, 0, K.length + 2⟩] := by
  unfold ToonDecoder.findHeaders
  obtain ⟨f, hf⟩ : ∃ f, ('{' :: (K ++ '}' :: '\n' :: R)).length = f + 2 :=
    ⟨K.length + R.length + 1, by simp; omega⟩
  rw [hf]
  rw [findHeadersAux_step_match (tryHeader_block hK hKc)]
  have hdrop : ('{' :: (K ++ '}' :: '\n' :: R)).drop (K.length + 2) = '\n' :: R := by
    rw [show ('{' :: (K ++ '}' :: '\n' :: R)) = (('{' :: K) ++ ['}']) ++ ('\n' :: R) by simp]
    rw [show K.length + 2 = (('{' :: K) ++ ['}']).length by simp]
    exact List.drop_left _ _
  rw [hdrop]
  cases f with
  | zero =>
    rw [show (0 : Nat) + 1 = 0 + 1 from rfl]
    rw [findHeadersAux_step_notLS]
    rw [findHeadersAux_nil_of_no_brace hR]
    simp
  | succ f2 =>
    rw [findHeadersAux_step_notLS]
    rw [findHeadersAux_nil_of_no_brace hR]
    simp

/-! ## Helper lemmas: dict building and row recovery -/

theorem zip_fst_snd {α β : Type} (l : List (α × β)) :
    (l.map Prod.fst).zip (l.map Prod.snd) = l := by
  rw [List.zip_map']
  simp

theorem dictFold_acc : ∀ (kvs : List (List Char × Value)) (acc : List (List Char × Value)),
    (∀ kv ∈ kvs, ∀ kv2 ∈ acc, kv2.1 ≠ kv.1) → (kvs.map Prod.fst).Nodup →
    kvs.foldl (fun d kv => ToonDecoder.dictInsert d kv.1 kv.2) acc = acc ++ kvs := by
  intro kvs
  induction kvs with
  | nil => intro acc _ _; simp
  | cons kv rest ih =>
    intro acc hdisj hnd
    rw [List.foldl_cons]
    have hany : acc.any (fun kv2 => kv2.1 = kv.1) = false := by
      rw [List.any_eq_false]
      intro kv2 h2
      simp [hdisj kv (by simp) kv2 h2]
    have hins : ToonDecoder.dictInsert acc kv.1 kv.2 = acc ++ [kv] := by
      unfold ToonDecoder.dictInsert
      rw [hany]
      simp
    rw [hins]
    rw [List.map_cons, List.nodup_cons] at hnd
    rw [ih (acc ++ [kv]) ?_ hnd.2]
    · simp
    · intro kv' hkv' kv2 hkv2
      rcases List.mem_append.1 hkv2 with h2 | h2
      · exact hdisj kv' (by simp [hkv']) kv2 h2
      · simp at h2
        rw [h2]
        intro he
        exact hnd.1 (he ▸ List.mem_map_of_mem Prod.fst hkv')

theorem dictFromPairs_id {kvs : List (List Char × Value)}
    (hnd : (kvs.map Prod.fst).Nodup) : ToonDecoder.dictFromPairs kvs = kvs := by
  unfold ToonDecoder.dictFromPairs
  have := dictFold_acc kvs [] (by simp) hnd
  simpa using this

theorem pyGet_self : ∀ (kvs : List (List Char × Value)), (kvs.map Prod.fst).Nodup →
    kvs.map (fun kv => pyGet kvs kv.1) = kvs.map Prod.snd := by
  intro kvs
  induction kvs with
  | nil => intro _; rfl
  | cons kv rest ih =>
    rcases kv with ⟨k0, v0⟩
    intro hnd
    rw [List.map_cons, List.nodup_cons] at hnd
    rw [List.map_cons, List.map_cons]
    have h1 : pyGet ((k0, v0) :: rest) k0 = v0 := by
      rw [pyGet, if_pos rfl]
    have h2 : rest.map (fun kv => pyGet ((k0, v0) :: rest) kv.1) =
        rest.map (fun kv => pyGet rest kv.1) := by
      apply List.map_congr_left
      intro kv' hkv'
      rw [pyGet, if_neg]
      intro he
      apply hnd.1
      rw [he]
      exact List.mem_map.2 ⟨kv', hkv', rfl⟩
    rw [h1, h2, ih hnd.2]

theorem sectionValue_single {keys : List (List Char)} {body ln : List Char}
    (h : ((pySplitlines body).map pyStrip).filter (fun l => !l.isEmpty) = [ln]) :
    ToonDecoder.sectionValue keys body = .obj (ToonDecoder.rowObj keys ln) := by
  unfold ToonDecoder.sectionValue
  rw [h]

theorem sectionValue_cons2 {keys : List (List Char)} {body l1 l2 : List Char}
    {ls : List (List Char)}
    (h : ((pySplitlines body).map pyStrip).filter (fun l => !l.isEmpty) = l1 :: l2 :: ls) :
    ToonDecoder.sectionValue keys body =
      .list ((l1 :: l2 :: ls).map (fun ln => Value.obj (ToonDecoder.rowObj keys ln))) := by
  unfold ToonDecoder.sectionValue
  rw [h]

theorem rowObj_recover {kvs : List (List Char × Value)}
    (hnd : (kvs.map Prod.fst).Nodup) (hne : kvs ≠ [])
    (hv : ∀ kv ∈ kvs, SafeScalar kv.2 = true) :
    ToonDecoder.rowObj (kvs.map Prod.fst)
      (joinSep [','] (kvs.map (fun kv => ToonEncoder.encode_value (pyGet kvs kv.1)))) = kvs := by
  unfold ToonDecoder.rowObj
  have htoks : kvs.map (fun kv => ToonEncoder.encode_value (pyGet kvs kv.1)) =
      (kvs.map Prod.snd).map ToonEncoder.encode_value := by
    rw [List.map_map]
    have h1 : kvs.map (fun kv => ToonEncoder.encode_value (pyGet kvs kv.1)) =
        (kvs.map (fun kv => pyGet kvs kv.1)).map ToonEncoder.encode_value := by
      rw [List.map_map]
      rfl
    rw [h1, pyGet_self kvs hnd, List.map_map]
  rw [htoks]
  have hsplit : ToonDecoder.split_top_level_commas
      (joinSep [','] ((kvs.map Prod.snd).map ToonEncoder.encode_value)) =
      (kvs.map Prod.snd).map ToonEncoder.encode_value := by
    apply split_join_clean
    · simp [hne]
    · intro t ht
      simp only [List.mem_map] at ht
      obtain ⟨v, ⟨kv, hkv, rfl⟩, rfl⟩ := ht
      exact encTok_clean (hv kv hkv)
  rw [hsplit]
  have hparse : ((kvs.map Prod.snd).map ToonEncoder.encode_value).map
      ToonDecoder.parse_value = kvs.map Prod.snd := by
    rw [List.map_map]
    have : kvs.map Prod.snd = (kvs.map Prod.snd).map id := by simp
    nth_rewrite 2 [this]
    apply List.map_congr_left
    intro v hv2
    simp only [List.mem_map] at hv2
    obtain ⟨kv, hkv, rfl⟩ := hv2
    show ToonDecoder.parse_value (ToonEncoder.encode_value kv.2) = id kv.2
    unfold ToonDecoder.parse_value
    exact parse_encTok (hv kv hkv) _
  rw [hparse, zip_fst_snd, dictFromPairs_id hnd]

/-! ## Helper lemmas: assembled round trips -/

theorem getLast?_append_right {l r : List Char} (hr : r ≠ []) :
    (l ++ r).getLast? = r.getLast? := by
  obtain ⟨c, hc⟩ := getLast?_ne_none_of_ne_nil hr
  rw [List.getLast?_append, hc]
  rfl

theorem wordKey_parts {k : List Char} (h : wordKey k = true) :
    k ≠ [] ∧ ∀ c ∈ k, isWordChar c = true := by
  unfold wordKey at h
  rw [Bool.and_eq_true, List.all_eq_true] at h
  exact ⟨by simpa using h.1, h.2⟩

theorem hasComplex_safe {v : Value} (h : SafeScalar v = true) :
    ToonEncoder.hasComplexValue v = false := by
  cases v <;> first | rfl | simp [SafeScalar] at h

theorem keyJoin_facts {keys : List (List Char)} (hne : keys ≠ [])
    (hk : ∀ k ∈ keys, wordKey k = true) :
    joinSep [','] keys ≠ [] ∧ (∀ c ∈ joinSep [','] keys, c ≠ '}') ∧
    (pySplit ',' (joinSep [','] keys)).map pyStrip = keys := by
  refine ⟨?_, ?_, ?_⟩
  · exact joinSep_ne_nil hne (fun k hk2 => (wordKey_parts (hk k hk2)).1)
  · intro c hc
    rcases mem_joinSep hc with h1 | ⟨k, hk2, hc2⟩
    · simp at h1; rw [h1]; decide
    · exact isWordChar_ne ((wordKey_parts (hk k hk2)).2 c hc2) '}' (by decide)
  · rw [pySplit_join hne (fun k hk2 c hc =>
      isWordChar_ne ((wordKey_parts (hk k hk2)).2 c hc) ',' (by decide))]
    have : ∀ k ∈ keys, pyStrip k = k := fun k hk2 =>
      strip_id_of_all_nonspace (fun c hc => isPySpace_of_word ((wordKey_parts (hk k hk2)).2 c hc))
    rw [List.map_congr_left this]
    simp

theorem rowText_facts {toks : List (List Char)} (hne : toks ≠ [])
    (h : ∀ t ∈ toks, t ≠ [] ∧ (∀ c ∈ t, safeChar c = true ∨ c = '"') ∧
      quoteParity t = false ∧ pyStrip t = t) :
    (∀ c ∈ joinSep [','] toks, c ≠ '{' ∧ isLineBreakChar c = false) ∧
    joinSep [','] toks ≠ [] ∧
    pyStrip (joinSep [','] toks) = joinSep [','] toks := by
  have hchars : ∀ c ∈ joinSep [','] toks, c ≠ '{' ∧ isLineBreakChar c = false := by
    intro c hc
    rcases mem_joinSep hc with h1 | ⟨t, ht, hc2⟩
    · simp at h1; rw [h1]; exact ⟨by decide, by decide⟩
    · rcases (h t ht).2.1 c hc2 with hs | hq
      · obtain ⟨_, _, _, h4, _, _, _, _, _⟩ := safeChar_spec hs
        exact ⟨h4, safeChar_not_break hs⟩
      · rw [hq]; exact ⟨by decide, by decide⟩
  refine ⟨hchars, joinSep_ne_nil hne (fun t ht => (h t ht).1), ?_⟩
  apply pyStrip_eq_self
  · intro c hc
    rcases toks with _ | ⟨t0, trest⟩
    · cases hne rfl
    · rw [joinSep_head? (h t0 (by simp)).1] at hc
      exact ((edge_nonspace_of_strip_id (h t0 (by simp)).2.2.2).1) c hc
  · intro c hc
    obtain ⟨ls', x, rfl⟩ := (List.eq_nil_or_concat toks).resolve_left hne
    have hx := h x (by simp)
    rw [List.concat_eq_append] at hc
    rw [joinSep_getLast?_concat hx.1] at hc
    exact ((edge_nonspace_of_strip_id hx.2.2.2).2) c hc

theorem decode_single_anon_eq {text : List Char} {m : ToonDecoder.HeaderMatch}
    (hb : ¬((pyStrip text).head? = some '[' ∧ (pyStrip text).getLast? = some ']'))
    (hm : ToonDecoder.findHeaders (pyStrip text) = [m]) (hn : m.name = none) :
    ToonDecoder.decode text = .value (ToonDecoder.sectionValue
      ((pySplit ',' m.keysRaw).map pyStrip) (pyStrip ((pyStrip text).drop m.mend))) := by
  unfold ToonDecoder.decode
  rw [if_neg hb, hm]
  simp [hn]

theorem decode_multi_eq {text : List Char} {m : ToonDecoder.HeaderMatch}
    {rest : List ToonDecoder.HeaderMatch}
    (hb : ¬((pyStrip text).head? = some '[' ∧ (pyStrip text).getLast? = some ']'))
    (hm : ToonDecoder.findHeaders (pyStrip text) = m :: rest)
    (hnm : ¬(rest.isEmpty = true ∧ m.name = none)) :
    ToonDecoder.decode text = .keyed (ToonDecoder.dictFromPairsO
      (ToonDecoder.decodeMultiPairs (pyStrip text) (m :: rest))) := by
  unfold ToonDecoder.decode
  rw [if_neg hb, hm]
  simp
  intro h2 h3
  exact hnm ⟨by simp [h2], h3⟩

theorem encode_simple_obj {kvs : List (List Char × Value)}
    (hv : ∀ kv ∈ kvs, SafeScalar kv.2 = true) :
    ToonEncoder.encode (.obj kvs) = .ok ('{' :: ((joinSep [','] (kvs.map Prod.fst)) ++
      '}' :: '\n' ::
      joinSep [','] (kvs.map (fun kv => ToonEncoder.encode_value (pyGet kvs kv.1))))) := by
  rw [ToonEncoder.encode]
  rw [if_neg (by
    rw [show kvs.any (fun kv => ToonEncoder.hasComplexValue kv.2) = false by
      rw [List.any_eq_false]
      intro kv hkv
      simp [hasComplex_safe (hv kv hkv)]]
    simp)]
  rw [show (fun (kv : List Char × Value) => kv.1) = Prod.fst from rfl]
  simp [List.append_assoc]

theorem decode_simple_obj {kvs : List (List Char × Value)}
    (hne : kvs ≠ []) (hnd : (kvs.map Prod.fst).Nodup)
    (hk : ∀ kv ∈ kvs, wordKey kv.1 = true)
    (hv : ∀ kv ∈ kvs, SafeScalar kv.2 = true) :
    ToonDecoder.decode ('{' :: ((joinSep [','] (kvs.map Prod.fst)) ++ '}' :: '\n' ::
      joinSep [','] (kvs.map (fun kv => ToonEncoder.encode_value (pyGet kvs kv.1))))) =
      .value (.obj kvs) := by
  have hkeysne : kvs.map Prod.fst ≠ [] := by simp [hne]
  have hkw : ∀ k ∈ kvs.map Prod.fst, wordKey k = true := by
    intro k hk2
    obtain ⟨kv, hkv, rfl⟩ := List.mem_map.1 hk2
    exact hk kv hkv
  obtain ⟨hKne, hKnb, hKrec⟩ := keyJoin_facts hkeysne hkw
  have htoksne : kvs.map (fun kv => ToonEncoder.encode_value (pyGet kvs kv.1)) ≠ [] := by
    simp [hne]
  have htoksclean : ∀ t ∈ kvs.map (fun kv => ToonEncoder.encode_value (pyGet kvs kv.1)),
      t ≠ [] ∧ (∀ c ∈ t, safeChar c = true ∨ c = '"') ∧
      quoteParity t = false ∧ pyStrip t = t := by
    intro t ht
    obtain ⟨kv, hkv, rfl⟩ := List.mem_map.1 ht
    have hsafe : SafeScalar (pyGet kvs kv.1) = true := by
      have h2 : pyGet kvs kv.1 ∈ kvs.map (fun kv => pyGet kvs kv.1) :=
        List.mem_map.2 ⟨kv, hkv, rfl⟩
      rw [pyGet_self kvs hnd] at h2
      obtain ⟨kv2, hkv2, he2⟩ := List.mem_map.1 h2
      rw [← he2]
      exact hv kv2 hkv2
    exact encTok_clean hsafe
  obtain ⟨hRchars, hRne, hRstrip⟩ := rowText_facts htoksne htoksclean
  have hKnob : ∀ c ∈ joinSep [','] (kvs.map Prod.fst), c ≠ '{' := by
    intro c hc
    rcases mem_joinSep hc with h1 | ⟨k, hk2, hc2⟩
    · simp at h1; rw [h1]; decide
    · exact isWordChar_ne ((wordKey_parts (hkw k hk2)).2 c hc2) '{' (by decide)
  have hstrip : pyStrip ('{' :: ((joinSep [','] (kvs.map Prod.fst)) ++ '}' :: '\n' ::
      joinSep [','] (kvs.map (fun kv => ToonEncoder.encode_value (pyGet kvs kv.1))))) =
      '{' :: ((joinSep [','] (kvs.map Prod.fst)) ++ '}' :: '\n' ::
      joinSep [','] (kvs.map (fun kv => ToonEncoder.encode_value (pyGet kvs kv.1)))) := by
    apply pyStrip_eq_self
    · intro c hc
      simp at hc
      rw [← hc]; decide
    · intro c hc
      rw [getLast?_cons_of_ne_nil (by simp), getLast?_append_right (by simp),
        getLast?_cons_of_ne_nil (by simp), getLast?_cons_of_ne_nil hRne] at hc
      exact (edge_nonspace_of_strip_id hRstrip).2 c hc
  rw [decode_single_anon_eq (m := ⟨none, joinSep [','] (kvs.map Prod.fst), 0,
      (joinSep [','] (kvs.map Prod.fst)).length + 2⟩) ?_ ?_ rfl]
  · show ToonDecoder.Decoded.value (ToonDecoder.sectionValue _ _) = _
    rw [hstrip]
    have hdrop : ('{' :: ((joinSep [','] (kvs.map Prod.fst)) ++ '}' :: '\n' ::
        joinSep [','] (kvs.map (fun kv => ToonEncoder.encode_value (pyGet kvs kv.1))))).drop
        ((joinSep [','] (kvs.map Prod.fst)).length + 2) =
        '\n' :: joinSep [','] (kvs.map (fun kv => ToonEncoder.encode_value (pyGet kvs kv.1))) := by
      rw [show ('{' :: ((joinSep [','] (kvs.map Prod.fst)) ++ '}' :: '\n' ::
          joinSep [','] (kvs.map (fun kv => ToonEncoder.encode_value (pyGet kvs kv.1))))) =
        (('{' :: (joinSep [','] (kvs.map Prod.fst))) ++ ['}']) ++ ('\n' ::
          joinSep [','] (kvs.map (fun kv => ToonEncoder.encode_value (pyGet kvs kv.1)))) by simp]
      rw [show (joinSep [','] (kvs.map Prod.fst)).length + 2 =
        (('{' :: (joinSep [','] (kvs.map Prod.fst))) ++ ['}']).length by simp]
      exact List.drop_left _ _
    rw [hdrop, pyStrip_cons_space (by decide), hRstrip]
    show ToonDecoder.Decoded.value (ToonDecoder.sectionValue ((pySplit ','
      (joinSep [','] (kvs.map Prod.fst))).map pyStrip) _) = _
    rw [hKrec]
    have hlines : ((pySplitlines (joinSep [','] (kvs.map (fun kv =>
        ToonEncoder.encode_value (pyGet kvs kv.1))))).map pyStrip).filter
        (fun l => !l.isEmpty) = [joinSep [','] (kvs.map (fun kv =>
        ToonEncoder.encode_value (pyGet kvs kv.1)))] := by
      rw [pySplitlines_single (fun c hc => (hRchars c hc).2) hRne]
      rw [List.map_singleton, hRstrip, List.filter_cons, if_pos (by simp [hRne])]
      rfl
    rw [sectionValue_single hlines, rowObj_recover hnd hne hv]
  · rw [hstrip]
    rintro ⟨h1, _⟩
    simp at h1
  · rw [hstrip]
    exact findHeaders_block hKne hKnb (fun c hc => (hRchars c hc).1)

theorem rowsOf_all_obj (K : List (List Char)) (kvss : List (List (List Char × Value))) :
    ToonEncoder.rowsOf K (kvss.map Value.obj) =
      .ok (kvss.map (fun kvs =>
        joinSep [','] (K.map (fun k => ToonEncoder.encode_value (pyGet kvs k))))) := by
  induction kvss with
  | nil => rfl
  | cons kvs rest ih =>
    simp only [List.map_cons, ToonEncoder.rowsOf, ToonEncoder.rowOf, ih]

theorem rowsOf_all_obj_cons (K : List (List Char)) (kvs : List (List Char × Value))
    (rest : List (List (List Char × Value))) :
    ToonEncoder.rowsOf K (Value.obj kvs :: rest.map Value.obj) =
      .ok ((kvs :: rest).map (fun kvs2 =>
        joinSep [','] (K.map (fun k => ToonEncoder.encode_value (pyGet kvs2 k))))) := by
  have h := rowsOf_all_obj K (kvs :: rest)
  rw [List.map_cons] at h
  exact h

theorem rowText_of_keys {kvs : List (List Char × Value)} {K : List (List Char)}
    (h : kvs.map Prod.fst = K) :
    joinSep [','] (K.map (fun k => ToonEncoder.encode_value (pyGet kvs k))) =
      joinSep [','] (kvs.map (fun kv => ToonEncoder.encode_value (pyGet kvs kv.1))) := by
  rw [← h, List.map_map]
  rfl

theorem encode_tab_list {kvs0 : List (List Char × Value)}
    {rest : List (List (List Char × Value))}
    (hkeys : ∀ kvs ∈ (kvs0 :: rest), kvs.map Prod.fst = kvs0.map Prod.fst) :
    ToonEncoder.encode (.list ((kvs0 :: rest).map Value.obj)) =
      .ok ('\x7b' :: ((joinSep [','] (kvs0.map Prod.fst)) ++ '\x7d' :: '\n' ::
        joinSep ['\n'] ((kvs0 :: rest).map (fun kvs =>
          joinSep [','] (kvs.map (fun kv => ToonEncoder.encode_value (pyGet kvs kv.1))))))) := by
  rw [ToonEncoder.encode]
  show ToonEncoder.encode_list_block none ((kvs0 :: rest).map Value.obj) = _
  rw [List.map_cons]
  simp only [ToonEncoder.encode_list_block, rowsOf_all_obj_cons]
  rw [List.map_congr_left (fun kvs hkvs => rowText_of_keys (hkeys kvs hkvs))]
  simp [List.append_assoc]

theorem rowText_facts_of {kvs : List (List Char × Value)} (hne : kvs ≠ [])
    (hnd : (kvs.map Prod.fst).Nodup)
    (hv : ∀ kv ∈ kvs, SafeScalar kv.2 = true) :
    (∀ c ∈ joinSep [','] (kvs.map (fun kv => ToonEncoder.encode_value (pyGet kvs kv.1))),
      c ≠ '{' ∧ isLineBreakChar c = false) ∧
    joinSep [','] (kvs.map (fun kv => ToonEncoder.encode_value (pyGet kvs kv.1))) ≠ [] ∧
    pyStrip (joinSep [','] (kvs.map (fun kv => ToonEncoder.encode_value (pyGet kvs kv.1)))) =
      joinSep [','] (kvs.map (fun kv => ToonEncoder.encode_value (pyGet kvs kv.1))) := by
  apply rowText_facts (by simp [hne])
  intro t ht
  obtain ⟨kv, hkv, rfl⟩ := List.mem_map.1 ht
  have hsafe : SafeScalar (pyGet kvs kv.1) = true := by
    have h2 : pyGet kvs kv.1 ∈ kvs.map (fun kv => pyGet kvs kv.1) :=
      List.mem_map.2 ⟨kv, hkv, rfl⟩
    rw [pyGet_self kvs hnd] at h2
    obtain ⟨kv2, hkv2, he2⟩ := List.mem_map.1 h2
    rw [← he2]
    exact hv kv2 hkv2
  exact encTok_clean hsafe

theorem decode_tab_list {kvs0 kvs1 : List (List Char × Value)}
    {rest : List (List (List Char × Value))}
    (hne0 : kvs0 ≠ []) (hnd : (kvs0.map Prod.fst).Nodup)
    (hk : ∀ kv ∈ kvs0, wordKey kv.1 = true)
    (hkeys : ∀ kvs ∈ (kvs0 :: kvs1 :: rest), kvs.map Prod.fst = kvs0.map Prod.fst)
    (hv : ∀ kvs ∈ (kvs0 :: kvs1 :: rest), ∀ kv ∈ kvs, SafeScalar kv.2 = true) :
    ToonDecoder.decode ('{' :: ((joinSep [','] (kvs0.map Prod.fst)) ++ '}' :: '\n' ::
      joinSep ['\n'] ((kvs0 :: kvs1 :: rest).map (fun kvs =>
        joinSep [','] (kvs.map (fun kv => ToonEncoder.encode_value (pyGet kvs kv.1))))))) =
      .value (.list ((kvs0 :: kvs1 :: rest).map Value.obj)) := by
  have hkeysne : kvs0.map Prod.fst ≠ [] := by simp [hne0]
  have hkw : ∀ k ∈ kvs0.map Prod.fst, wordKey k = true := by
    intro k hk2
    obtain ⟨kv, hkv, rfl⟩ := List.mem_map.1 hk2
    exact hk kv hkv
  obtain ⟨hKne, hKnb, hKrec⟩ := keyJoin_facts hkeysne hkw
  have hprops : ∀ kvs ∈ (kvs0 :: kvs1 :: rest), kvs ≠ [] ∧ (kvs.map Prod.fst).Nodup := by
    intro kvs hkvs
    have hkk := hkeys kvs hkvs
    refine ⟨?_, by rw [hkk]; exact hnd⟩
    intro hnil
    rw [hnil] at hkk
    exact hkeysne hkk.symm
  have hrow : ∀ kvs ∈ (kvs0 :: kvs1 :: rest),
      (∀ c ∈ joinSep [','] (kvs.map (fun kv => ToonEncoder.encode_value (pyGet kvs kv.1))),
        c ≠ '{' ∧ isLineBreakChar c = false) ∧
      joinSep [','] (kvs.map (fun kv => ToonEncoder.encode_value (pyGet kvs kv.1))) ≠ [] ∧
      pyStrip (joinSep [','] (kvs.map (fun kv => ToonEncoder.encode_value (pyGet kvs kv.1)))) =
        joinSep [','] (kvs.map (fun kv => ToonEncoder.encode_value (pyGet kvs kv.1))) := by
    intro kvs hkvs
    exact rowText_facts_of (hprops kvs hkvs).1 (hprops kvs hkvs).2 (hv kvs hkvs)
  have hrowsne : (kvs0 :: kvs1 :: rest).map (fun kvs =>
      joinSep [','] (kvs.map (fun kv => ToonEncoder.encode_value (pyGet kvs kv.1)))) ≠ [] := by
    simp
  have hrowne : ∀ r ∈ (kvs0 :: kvs1 :: rest).map (fun kvs =>
      joinSep [','] (kvs.map (fun kv => ToonEncoder.encode_value (pyGet kvs kv.1)))), r ≠ [] := by
    intro r hr
    obtain ⟨kvs, hkvs, rfl⟩ := List.mem_map.1 hr
    exact (hrow kvs hkvs).2.1
  have hBne : joinSep ['\n'] ((kvs0 :: kvs1 :: rest).map (fun kvs =>
      joinSep [','] (kvs.map (fun kv => ToonEncoder.encode_value (pyGet kvs kv.1))))) ≠ [] :=
    joinSep_ne_nil hrowsne hrowne
  have hBchars : ∀ c ∈ joinSep ['\n'] ((kvs0 :: kvs1 :: rest).map (fun kvs =>
      joinSep [','] (kvs.map (fun kv => ToonEncoder.encode_value (pyGet kvs kv.1))))),
      c ≠ '{' := by
    intro c hc
    rcases mem_joinSep hc with h1 | ⟨r, hr, hc2⟩
    · simp at h1; rw [h1]; decide
    · obtain ⟨kvs, hkvs, rfl⟩ := List.mem_map.1 hr
      exact ((hrow kvs hkvs).1 c hc2).1
  have hBstrip : pyStrip (joinSep ['\n'] ((kvs0 :: kvs1 :: rest).map (fun kvs =>
      joinSep [','] (kvs.map (fun kv => ToonEncoder.encode_value (pyGet kvs kv.1)))))) =
      joinSep ['\n'] ((kvs0 :: kvs1 :: rest).map (fun kvs =>
      joinSep [','] (kvs.map (fun kv => ToonEncoder.encode_value (pyGet kvs kv.1))))) := by
    apply pyStrip_eq_self
    · intro c hc
      rw [List.map_cons, joinSep_head? (hrow kvs0 (by simp)).2.1] at hc
      exact (edge_nonspace_of_strip_id (hrow kvs0 (by simp)).2.2).1 c hc
    · intro c hc
      obtain ⟨ls', x, hconc⟩ := (List.eq_nil_or_concat ((kvs0 :: kvs1 :: rest).map (fun kvs =>
        joinSep [','] (kvs.map (fun kv => ToonEncoder.encode_value
          (pyGet kvs kv.1)))))).resolve_left hrowsne
      have hxmem : x ∈ (kvs0 :: kvs1 :: rest).map (fun kvs =>
          joinSep [','] (kvs.map (fun kv => ToonEncoder.encode_value (pyGet kvs kv.1)))) := by
        rw [hconc]; simp
      obtain ⟨kvs, hkvs, hxeq⟩ := List.mem_map.1 hxmem
      have hxne : x ≠ [] := by rw [← hxeq]; exact (hrow kvs hkvs).2.1
      have hxstrip : pyStrip x = x := by rw [← hxeq]; exact (hrow kvs hkvs).2.2
      rw [hconc, List.concat_eq_append, joinSep_getLast?_concat hxne] at hc
      exact (edge_nonspace_of_strip_id hxstrip).2 c hc
  have hstrip : pyStrip ('{' :: ((joinSep [','] (kvs0.map Prod.fst)) ++ '}' :: '\n' ::
      joinSep ['\n'] ((kvs0 :: kvs1 :: rest).map (fun kvs =>
        joinSep [','] (kvs.map (fun kv => ToonEncoder.encode_value (pyGet kvs kv.1))))))) =
      '{' :: ((joinSep [','] (kvs0.map Prod.fst)) ++ '}' :: '\n' ::
      joinSep ['\n'] ((kvs0 :: kvs1 :: rest).map (fun kvs =>
        joinSep [','] (kvs.map (fun kv => ToonEncoder.encode_value (pyGet kvs kv.1)))))) := by
    apply pyStrip_eq_self
    · intro c hc
      simp at hc
      rw [← hc]; decide
    · intro c hc
      rw [getLast?_cons_of_ne_nil (by simp), getLast?_append_right (by simp),
        getLast?_cons_of_ne_nil (by simp), getLast?_cons_of_ne_nil hBne] at hc
      exact (edge_nonspace_of_strip_id hBstrip).2 c hc
  rw [decode_single_anon_eq (m := ⟨none, joinSep [','] (kvs0.map Prod.fst), 0,
      (joinSep [','] (kvs0.map Prod.fst)).length + 2⟩) ?_ ?_ rfl]
  · show ToonDecoder.Decoded.value (ToonDecoder.sectionValue _ _) = _
    rw [hstrip]
    have hdrop : ('{' :: ((joinSep [','] (kvs0.map Prod.fst)) ++ '}' :: '\n' ::
        joinSep ['\n'] ((kvs0 :: kvs1 :: rest).map (fun kvs =>
          joinSep [','] (kvs.map (fun kv => ToonEncoder.encode_value (pyGet kvs kv.1))))))).drop
        ((joinSep [','] (kvs0.map Prod.fst)).length + 2) =
        '\n' :: joinSep ['\n'] ((kvs0 :: kvs1 :: rest).map (fun kvs =>
          joinSep [','] (kvs.map (fun kv => ToonEncoder.encode_value (pyGet kvs kv.1))))) := by
      rw [show ('{' :: ((joinSep [','] (kvs0.map Prod.fst)) ++ '}' :: '\n' ::
          joinSep ['\n'] ((kvs0 :: kvs1 :: rest).map (fun kvs =>
            joinSep [','] (kvs.map (fun kv => ToonEncoder.encode_value (pyGet kvs kv.1))))))) =
        (('{' :: (joinSep [','] (kvs0.map Prod.fst))) ++ ['}']) ++ ('\n' ::
          joinSep ['\n'] ((kvs0 :: kvs1 :: rest).map (fun kvs =>
            joinSep [','] (kvs.map (fun kv => ToonEncoder.encode_value
              (pyGet kvs kv.1)))))) by simp]
      rw [show (joinSep [','] (kvs0.map Prod.fst)).length + 2 =
        (('{' :: (joinSep [','] (kvs0.map Prod.fst))) ++ ['}']).length by simp]
      exact List.drop_left _ _
    rw [hdrop, pyStrip_cons_space (by decide), hBstrip]
    show ToonDecoder.Decoded.value (ToonDecoder.sectionValue ((pySplit ','
      (joinSep [','] (kvs0.map Prod.fst))).map pyStrip) _) = _
    rw [hKrec]
    have hlines : ((pySplitlines (joinSep ['\n'] ((kvs0 :: kvs1 :: rest).map (fun kvs =>
        joinSep [','] (kvs.map (fun kv => ToonEncoder.encode_value
          (pyGet kvs kv.1))))))).map pyStrip).filter (fun l => !l.isEmpty) =
        (joinSep [','] (kvs0.map (fun kv => ToonEncoder.encode_value (pyGet kvs0 kv.1)))) ::
        (joinSep [','] (kvs1.map (fun kv => ToonEncoder.encode_value (pyGet kvs1 kv.1)))) ::
        (rest.map (fun kvs =>
          joinSep [','] (kvs.map (fun kv => ToonEncoder.encode_value (pyGet kvs kv.1))))) := by
      rw [pySplitlines_join hrowsne (fun r hr => ⟨hrowne r hr, by
        obtain ⟨kvs, hkvs, rfl⟩ := List.mem_map.1 hr
        intro c hc
        exact ((hrow kvs hkvs).1 c hc).2⟩)]
      rw [show ((kvs0 :: kvs1 :: rest).map (fun kvs =>
        joinSep [','] (kvs.map (fun kv => ToonEncoder.encode_value (pyGet kvs kv.1))))).map
          pyStrip = (kvs0 :: kvs1 :: rest).map (fun kvs =>
        joinSep [','] (kvs.map (fun kv => ToonEncoder.encode_value (pyGet kvs kv.1)))) from by
        rw [List.map_congr_left (fun r hr => by
          obtain ⟨kvs, hkvs, rfl⟩ := List.mem_map.1 hr
          show pyStrip _ = id _
          exact (hrow kvs hkvs).2.2)]
        simp]
      rw [List.filter_eq_self.2 (fun r hr => by
        have := hrowne r hr
        simp [this])]
      rfl
    rw [sectionValue_cons2 hlines]
    rw [show (joinSep [','] (kvs0.map (fun kv => ToonEncoder.encode_value (pyGet kvs0 kv.1)))) ::
        (joinSep [','] (kvs1.map (fun kv => ToonEncoder.encode_value (pyGet kvs1 kv.1)))) ::
        (rest.map (fun kvs =>
          joinSep [','] (kvs.map (fun kv => ToonEncoder.encode_value (pyGet kvs kv.1))))) =
        (kvs0 :: kvs1 :: rest).map (fun kvs =>
          joinSep [','] (kvs.map (fun kv => ToonEncoder.encode_value (pyGet kvs kv.1)))) from rfl]
    rw [List.map_map]
    rw [List.map_congr_left (fun kvs hkvs => by
      show Value.obj (ToonDecoder.rowObj (kvs0.map Prod.fst)
        (joinSep [','] (kvs.map (fun kv => ToonEncoder.encode_value (pyGet kvs kv.1))))) =
        Value.obj kvs
      rw [← hkeys kvs hkvs,
        rowObj_recover (hprops kvs hkvs).2 (hprops kvs hkvs).1 (hv kvs hkvs)])]
  · rw [hstrip]
    rintro ⟨h1, _⟩
    simp at h1
  · rw [hstrip]
    exact findHeaders_block hKne hKnb hBchars

theorem numLikeStart_eq (s : List Char) :
    ToonEncoder.numLikeStart s = specStartsNumeric s := by
  cases s <;> rfl

theorem hasSpecial_eq (s : List Char) :
    ToonEncoder.specialChars.any (fun c => s.contains c) = specHasSpecial s := by
  rw [Bool.eq_iff_iff]
  unfold specHasSpecial
  rw [List.any_eq_true, List.any_eq_true]
  constructor
  · rintro ⟨d, hd, hc⟩
    refine ⟨d, List.elem_iff.1 hc, ?_⟩
    simp [ToonEncoder.specialChars] at hd
    rcases hd with rfl | rfl | rfl | rfl | rfl | rfl | rfl | rfl <;> simp
  · rintro ⟨c, hc, hd⟩
    refine ⟨c, ?_, List.elem_iff.2 hc⟩
    simp only [ToonEncoder.specialChars]
    simp at hd ⊢
    tauto

theorem literal_cond_iff (s : List Char) :
    (pyLower s = ("true".toList) ∨ pyLower s = ("false".toList) ∨
     pyLower s = ("null".toList) ∨ pyLower s = ("none".toList)) ↔
    specLiteralLike s = true := by
  unfold specLiteralLike
  simp
  tauto

theorem encode_str_eq (s : List Char) :
    ToonEncoder.encode_value (.str s) =
      (if specStartsNumeric s then '"' :: (s ++ ['"'])
       else if specHasSpecial s then '"' :: (escapeQuotes s ++ ['"'])
       else if specLiteralLike s then '"' :: (s ++ ['"'])
       else s) := by
  rw [ToonEncoder.encode_value, numLikeStart_eq, hasSpecial_eq]
  by_cases h1 : specStartsNumeric s = true
  · rw [if_pos h1, if_pos h1]
    rfl
  · rw [if_neg h1, if_neg h1]
    by_cases h2 : specHasSpecial s = true
    · rw [if_pos h2, if_pos h2]
      rfl
    · rw [if_neg h2, if_neg h2]
      by_cases h3 : pyLower s = ("true".toList) ∨ pyLower s = ("false".toList) ∨
          pyLower s = ("null".toList) ∨ pyLower s = ("none".toList)
      · rw [if_pos h3, if_pos ((literal_cond_iff s).1 h3)]
        rfl
      · rw [if_neg h3, if_neg (fun hc => h3 ((literal_cond_iff s).2 hc))]

theorem rowsOf_ok_of_objs {K : List (List Char)} {items : List Value}
    (h : ∀ it ∈ items, it.isObj = true) :
    ∃ rs, ToonEncoder.rowsOf K items = .ok rs := by
  induction items with
  | nil => exact ⟨[], rfl⟩
  | cons it rest ih =>
    obtain ⟨rs, hrs⟩ := ih (fun x hx => h x (by simp [hx]))
    have hit := h it (by simp)
    cases it with
    | obj kvs =>
      refine ⟨joinSep [','] (K.map (fun k => ToonEncoder.encode_value (pyGet kvs k))) :: rs, ?_⟩
      rw [ToonEncoder.rowsOf]
      simp only [ToonEncoder.rowOf, hrs]
    | null => simp [Value.isObj] at hit
    | bool b => simp [Value.isObj] at hit
    | int n => simp [Value.isObj] at hit
    | float s => simp [Value.isObj] at hit
    | str s => simp [Value.isObj] at hit
    | list xs => simp [Value.isObj] at hit

theorem rowsOf_error_of_mixed {K : List (List Char)} {items : List Value}
    (hK : K ≠ []) (h : ∃ it ∈ items, it.isObj = false) :
    ToonEncoder.rowsOf K items = .error .attributeError := by
  induction items with
  | nil => simp at h
  | cons it rest ih =>
    by_cases hit : it.isObj = true
    · have hrest : ∃ x ∈ rest, x.isObj = false := by
        obtain ⟨x, hx, hxo⟩ := h
        rcases List.mem_cons.1 hx with rfl | hx2
        · rw [hit] at hxo; cases hxo
        · exact ⟨x, hx2, hxo⟩
      cases it with
      | obj kvs =>
        rw [ToonEncoder.rowsOf]
        simp only [ToonEncoder.rowOf, ih hrest]
      | null => simp [Value.isObj] at hit
      | bool b => simp [Value.isObj] at hit
      | int n => simp [Value.isObj] at hit
      | float s => simp [Value.isObj] at hit
      | str s => simp [Value.isObj] at hit
      | list xs => simp [Value.isObj] at hit
    · have hrow : ToonEncoder.rowOf K it = .error .attributeError := by
        have hKe : ¬K.isEmpty = true := by simp [hK]
        cases it with
        | obj kvs => simp [Value.isObj] at hit
        | null => exact if_neg hKe
        | bool b => exact if_neg hKe
        | int n => exact if_neg hKe
        | float s => exact if_neg hKe
        | str s => exact if_neg hKe
        | list xs => exact if_neg hKe
      rw [ToonEncoder.rowsOf]
      simp only [hrow]

theorem rowsOf_nil_keys : ∀ (items : List Value),
    ToonEncoder.rowsOf [] items = .ok (items.map (fun _ => ([] : List Char))) := by
  intro items
  induction items with
  | nil => rfl
  | cons it rest ih =>
    have hr : ToonEncoder.rowOf ([] : List (List Char)) it = .ok [] := by
      cases it <;> rfl
    rw [ToonEncoder.rowsOf]
    simp only [hr, ih, List.map_cons]

theorem encode_list_block_cases (nm : Option (List Char)) (items : List Value) :
    (mixedTabular items = true ∧
      ToonEncoder.encode_list_block nm items = .error .attributeError) ∨
    (mixedTabular items = false ∧ ∃ t, ToonEncoder.encode_list_block nm items = .ok t) := by
  cases items with
  | nil => exact Or.inr ⟨rfl, ⟨nm.getD [] ++ ['{', '}'], rfl⟩⟩
  | cons first rest =>
    by_cases hobj : first.isObj = true
    · cases first with
      | obj kvs0 =>
        cases kvs0 with
        | nil =>
          right
          constructor
          · rfl
          · rw [ToonEncoder.encode_list_block]
            rw [show (([] : List (List Char × Value)).map (fun kv => kv.1)) =
              ([] : List (List Char)) from rfl]
            simp only [rowsOf_nil_keys]
            exact ⟨_, rfl⟩
        | cons kv0 ks0 =>
          have hKne : ((kv0 :: ks0).map (fun kv => kv.1)) ≠ [] := by simp
          by_cases hmix : (Value.obj (kv0 :: ks0) :: rest).any (fun it => !it.isObj) = true
          · left
            constructor
            · show ((!(kv0 :: ks0).isEmpty) &&
                (Value.obj (kv0 :: ks0) :: rest).any (fun it => !it.isObj)) = true
              rw [show (!(kv0 :: ks0).isEmpty) = true from rfl, Bool.true_and]
              exact hmix
            · have herr : ∃ it ∈ (Value.obj (kv0 :: ks0) :: rest), it.isObj = false := by
                rw [List.any_eq_true] at hmix
                obtain ⟨x, hx, hxo⟩ := hmix
                exact ⟨x, hx, by simpa using hxo⟩
              rw [ToonEncoder.encode_list_block]
              simp only [rowsOf_error_of_mixed hKne herr]
          · have hmix2 : (Value.obj (kv0 :: ks0) :: rest).any (fun it => !it.isObj) = false := by
              cases h2 : (Value.obj (kv0 :: ks0) :: rest).any (fun it => !it.isObj)
              · rfl
              · exact absurd h2 hmix
            right
            constructor
            · show ((!(kv0 :: ks0).isEmpty) &&
                (Value.obj (kv0 :: ks0) :: rest).any (fun it => !it.isObj)) = false
              rw [show (!(kv0 :: ks0).isEmpty) = true from rfl, Bool.true_and]
              exact hmix2
            · have hobjs : ∀ it ∈ (Value.obj (kv0 :: ks0) :: rest), it.isObj = true := by
                rw [List.any_eq_false] at hmix2
                intro x hx
                have := hmix2 x hx
                simpa using this
              obtain ⟨rs, hrs⟩ := rowsOf_ok_of_objs
                (K := (kv0 :: ks0).map (fun kv => kv.1)) hobjs
              rw [ToonEncoder.encode_list_block]
              simp only [hrs]
              exact ⟨_, rfl⟩
      | null => simp [Value.isObj] at hobj
      | bool b => simp [Value.isObj] at hobj
      | int n => simp [Value.isObj] at hobj
      | float s => simp [Value.isObj] at hobj
      | str s => simp [Value.isObj] at hobj
      | list xs => simp [Value.isObj] at hobj
    · right
      constructor
      · cases first with
        | obj kvs => simp [Value.isObj] at hobj
        | null => rfl
        | bool b => rfl
        | int n => rfl
        | float s => rfl
        | str s => rfl
        | list xs => rfl
      · cases first with
        | obj kvs => simp [Value.isObj] at hobj
        | null => exact ⟨_, rfl⟩
        | bool b => exact ⟨_, rfl⟩
        | int n => exact ⟨_, rfl⟩
        | float s => exact ⟨_, rfl⟩
        | str s => exact ⟨_, rfl⟩
        | list xs => exact ⟨_, rfl⟩

theorem blockOf_cases (nm : List Char) (v : Value) :
    ((match v with | .list items => mixedTabular items | _ => false) = true ∧
      ToonEncoder.blockOf nm v = .error .attributeError) ∨
    ((match v with | .list items => mixedTabular items | _ => false) = false ∧
      ∃ t, ToonEncoder.blockOf nm v = .ok t) := by
  cases v with
  | list items =>
    rcases encode_list_block_cases (some nm) items with ⟨hm, he⟩ | ⟨hm, t, he⟩
    · exact Or.inl ⟨hm, he⟩
    · exact Or.inr ⟨hm, t, he⟩
  | null => exact Or.inr ⟨rfl, _, rfl⟩
  | bool b => exact Or.inr ⟨rfl, _, rfl⟩
  | int n => exact Or.inr ⟨rfl, _, rfl⟩
  | float s => exact Or.inr ⟨rfl, _, rfl⟩
  | str s => exact Or.inr ⟨rfl, _, rfl⟩
  | obj okvs => exact Or.inr ⟨rfl, _, rfl⟩

theorem blocksOf_cases (kvs : List (List Char × Value)) :
    (kvs.any (fun kv => match kv.2 with
        | .list items => mixedTabular items | _ => false) = true ∧
      ToonEncoder.blocksOf kvs = .error .attributeError) ∨
    (kvs.any (fun kv => match kv.2 with
        | .list items => mixedTabular items | _ => false) = false ∧
      ∃ bs, ToonEncoder.blocksOf kvs = .ok bs) := by
  induction kvs with
  | nil => exact Or.inr ⟨rfl, [], rfl⟩
  | cons kv rest ih =>
    obtain ⟨nm, v⟩ := kv
    rcases blockOf_cases nm v with ⟨hm, he⟩ | ⟨hm, t, he⟩
    · left
      constructor
      · rw [List.any_cons, Bool.or_eq_true]
        exact Or.inl hm
      · rw [ToonEncoder.blocksOf]
        simp only [he]
    · rcases ih with ⟨hm2, he2⟩ | ⟨hm2, bs, he2⟩
      · left
        constructor
        · rw [List.any_cons, Bool.or_eq_true]
          exact Or.inr hm2
        · rw [ToonEncoder.blocksOf]
          simp only [he, he2]
      · right
        constructor
        · rw [List.any_cons, hm2, Bool.or_false]
          exact hm
        · rw [ToonEncoder.blocksOf]
          simp only [he, he2]
          exact ⟨_, rfl⟩

theorem no_mixed_of_no_complex {kvs : List (List Char × Value)}
    (h : kvs.any (fun kv => ToonEncoder.hasComplexValue kv.2) = false) :
    kvs.any (fun kv => match kv.2 with
      | .list items => mixedTabular items | _ => false) = false := by
  rw [List.any_eq_false] at h ⊢
  intro kv hkv
  have hc := h kv hkv
  cases hv : kv.2 with
  | list items =>
    cases items with
    | nil => simp [mixedTabular]
    | cons first rest2 =>
      rw [hv] at hc
      show ¬(mixedTabular (first :: rest2)) = true
      cases first with
      | obj kvs => exact absurd hc (by simp [ToonEncoder.hasComplexValue, Value.isObj])
      | null => intro h2; exact Bool.noConfusion h2
      | bool b => intro h2; exact Bool.noConfusion h2
      | int n => intro h2; exact Bool.noConfusion h2
      | float s => intro h2; exact Bool.noConfusion h2
      | str s => intro h2; exact Bool.noConfusion h2
      | list xs => intro h2; exact Bool.noConfusion h2
  | null => simp
  | bool b => simp
  | int n => simp
  | float s => simp
  | str s => simp
  | obj okvs =>
    rw [hv] at hc
    simp [ToonEncoder.hasComplexValue] at hc

theorem encode_error_cases (v : Value) :
    (encodeRaises v = true ∧ ∃ e, ToonEncoder.encode v = .error e) ∨
    (encodeRaises v = false ∧ ∃ t, ToonEncoder.encode v = .ok t) := by
  cases v with
  | list items =>
    rcases encode_list_block_cases none items with ⟨hm, he⟩ | ⟨hm, t, he⟩
    · exact Or.inl ⟨hm, .attributeError, he⟩
    · exact Or.inr ⟨hm, t, he⟩
  | obj kvs =>
    rw [ToonEncoder.encode]
    by_cases hC : kvs.any (fun kv => ToonEncoder.hasComplexValue kv.2) = true
    · rw [if_pos hC]
      rcases blocksOf_cases kvs with ⟨hm, he⟩ | ⟨hm, bs, he⟩
      · left
        refine ⟨hm, .attributeError, ?_⟩
        simp only [he]
      · right
        refine ⟨hm, ?_⟩
        simp only [he]
        exact ⟨_, rfl⟩
    · have hC2 : kvs.any (fun kv => ToonEncoder.hasComplexValue kv.2) = false := by
        cases h2 : kvs.any (fun kv => ToonEncoder.hasComplexValue kv.2)
        · rfl
        · exact absurd h2 hC
      rw [if_neg hC]
      exact Or.inr ⟨no_mixed_of_no_complex hC2, _, rfl⟩
  | null => exact Or.inl ⟨rfl, .typeError, rfl⟩
  | bool b => exact Or.inl ⟨rfl, .typeError, rfl⟩
  | int n => exact Or.inl ⟨rfl, .typeError, rfl⟩
  | float s => exact Or.inl ⟨rfl, .typeError, rfl⟩
  | str s => exact Or.inl ⟨rfl, .typeError, rfl⟩

theorem splitAux_length : ∀ (cs : List Char) (esc inQ : Bool) (depth : Nat) (cur : List Char),
    (ToonDecoder.splitAux cs esc inQ depth cur).length =
      (splitShape cs esc inQ depth).1 +
      (if (splitShape cs esc inQ depth).2 = true ∨
          ((splitShape cs esc inQ depth).1 = 0 ∧ cur ≠ []) then 1 else 0) := by
  intro cs
  induction cs with
  | nil =>
    intro esc inQ depth cur
    unfold ToonDecoder.splitAux splitShape
    by_cases hc : cur.isEmpty
    · rw [if_pos hc]
      have h2 : cur = [] := by simpa using hc
      simp [h2]
    · rw [if_neg hc]
      have h2 : cur ≠ [] := by simpa using hc
      simp [h2]
  | cons c rest ih =>
    intro esc inQ depth cur
    rw [ToonDecoder.splitAux, splitShape]
    by_cases h1 : esc = true
    · simp only [if_pos h1]
      rw [ih]
      rcases hP : splitShape rest false inQ depth with ⟨n, b⟩
      cases b <;> by_cases hn : n = 0 <;> simp [tailShape, hn]
    · simp only [if_neg h1]
      by_cases h2 : c = '\\'
      · simp only [if_pos h2]
        rw [ih]
        rcases hP : splitShape rest true inQ depth with ⟨n, b⟩
        cases b <;> by_cases hn : n = 0 <;> simp [tailShape, hn]
      · simp only [if_neg h2]
        by_cases h3 : c = '"'
        · simp only [if_pos h3]
          rw [ih]
          rcases hP : splitShape rest false (!inQ) depth with ⟨n, b⟩
          cases b <;> by_cases hn : n = 0 <;> simp [tailShape, hn]
        · simp only [if_neg h3]
          by_cases h4 : inQ = true
          · simp only [if_pos h4]
            rw [ih]
            rcases hP : splitShape rest false inQ depth with ⟨n, b⟩
            cases b <;> by_cases hn : n = 0 <;> simp [tailShape, hn]
          · simp only [if_neg h4]
            by_cases h5 : c = '[' ∨ c = '\x7b'
            · simp only [if_pos h5]
              rw [ih]
              rcases hP : splitShape rest false inQ (depth + 1) with ⟨n, b⟩
              cases b <;> by_cases hn : n = 0 <;> simp [tailShape, hn]
            · simp only [if_neg h5]
              by_cases h6 : c = ']' ∨ c = '\x7d'
              · simp only [if_pos h6]
                rw [ih]
                rcases hP : splitShape rest false inQ (depth - 1) with ⟨n, b⟩
                cases b <;> by_cases hn : n = 0 <;> simp [tailShape, hn]
              · simp only [if_neg h6]
                by_cases h7 : c = ',' ∧ depth = 0
                · simp only [if_pos h7]
                  rw [List.length_cons, ih]
                  rcases hP : splitShape rest false inQ depth with ⟨n, b⟩
                  cases b <;> simp [tailShape]
                · simp only [if_neg h7]
                  rw [ih]
                  rcases hP : splitShape rest false inQ depth with ⟨n, b⟩
                  cases b <;> by_cases hn : n = 0 <;> simp [tailShape, hn]

theorem splitAux_pieces_stripped :
    ∀ (cs : List Char) (esc inQ : Bool) (depth : Nat) (cur p : List Char),
    p ∈ ToonDecoder.splitAux cs esc inQ depth cur → pyStrip p = p := by
  intro cs
  induction cs with
  | nil =>
    intro esc inQ depth cur p hp
    unfold ToonDecoder.splitAux at hp
    by_cases hc : cur.isEmpty
    · rw [if_pos hc] at hp
      simp at hp
    · rw [if_neg hc] at hp
      simp at hp
      rw [hp]
      exact pyStrip_idem _
  | cons c rest ih =>
    intro esc inQ depth cur p hp
    rw [ToonDecoder.splitAux] at hp
    split_ifs at hp
    · exact ih _ _ _ _ _ hp
    · exact ih _ _ _ _ _ hp
    · exact ih _ _ _ _ _ hp
    · exact ih _ _ _ _ _ hp
    · exact ih _ _ _ _ _ hp
    · exact ih _ _ _ _ _ hp
    · rcases List.mem_cons.1 hp with rfl | hp2
      · exact pyStrip_idem _
      · exact ih _ _ _ _ _ hp2
    · exact ih _ _ _ _ _ hp

theorem validateAux_step_ok (l : List Char) (lines : List (List Char)) (i : Nat)
    (sec : Option (List Char × Nat)) (h : rowMismatch sec l = false) :
    validateAux (l :: lines) i sec = validateAux lines (i + 1) (vStep sec l) := by
  cases sec with
  | none =>
    show (if (pyStrip l).isEmpty then validateAux lines (i + 1) none
      else
        match vHeader (pyStrip l) with
        | some (nm, inner) => validateAux lines (i + 1) (some (nm, (pySplit ',' inner).length))
        | none => validateAux lines (i + 1) none) = validateAux lines (i + 1) (vStep none l)
    by_cases he : (pyStrip l).isEmpty
    · rw [if_pos he]
      have hv : vStep none l = none := by simp [vStep, he]
      rw [hv]
    · rw [if_neg he]
      cases hh : vHeader (pyStrip l) with
      | some p =>
        obtain ⟨nm, inner⟩ := p
        simp only [hh]
        have hv : vStep none l = some (nm, (pySplit ',' inner).length) := by
          simp [vStep, he, hh]
        rw [hv]
      | none =>
        simp only [hh]
        have hv : vStep none l = none := by simp [vStep, he, hh]
        rw [hv]
  | some p =>
    obtain ⟨nm, exp⟩ := p
    show (if (pyStrip l).isEmpty then validateAux lines (i + 1) none
      else
        match vHeader (pyStrip l) with
        | some (nm2, inner) => validateAux lines (i + 1) (some (nm2, (pySplit ',' inner).length))
        | none =>
          if (ToonDecoder.split_top_level_commas (pyStrip l)).length ≠ exp then
            .error ⟨nm, i + 1, exp, (ToonDecoder.split_top_level_commas (pyStrip l)).length,
              (pyStrip l).take 50⟩
          else validateAux lines (i + 1) (some (nm, exp))) =
      validateAux lines (i + 1) (vStep (some (nm, exp)) l)
    by_cases he : (pyStrip l).isEmpty
    · rw [if_pos he]
      have hv : vStep (some (nm, exp)) l = none := by simp [vStep, he]
      rw [hv]
    · rw [if_neg he]
      cases hh : vHeader (pyStrip l) with
      | some p2 =>
        obtain ⟨nm2, inner⟩ := p2
        simp only [hh]
        have hv : vStep (some (nm, exp)) l = some (nm2, (pySplit ',' inner).length) := by
          simp [vStep, he, hh]
        rw [hv]
      | none =>
        simp only [hh]
        have hv : vStep (some (nm, exp)) l = some (nm, exp) := by simp [vStep, he, hh]
        rw [hv]
        have hlen : ¬((ToonDecoder.split_top_level_commas (pyStrip l)).length ≠ exp) := by
          simp [rowMismatch, he, hh] at h
          omega
        rw [if_neg hlen]

theorem validateAux_step_err (l : List Char) (lines : List (List Char)) (i : Nat)
    (nm : List Char) (exp : Nat) (h : rowMismatch (some (nm, exp)) l = true) :
    validateAux (l :: lines) i (some (nm, exp)) =
      .error ⟨nm, i + 1, exp, (ToonDecoder.split_top_level_commas (pyStrip l)).length,
        (pyStrip l).take 50⟩ := by
  simp only [rowMismatch, Bool.and_eq_true, decide_eq_true_eq,
    Option.isNone_iff_eq_none] at h
  obtain ⟨⟨h1, h2⟩, h3⟩ := h
  show (if (pyStrip l).isEmpty then validateAux lines (i + 1) none
    else
      match vHeader (pyStrip l) with
      | some (nm2, inner) => validateAux lines (i + 1) (some (nm2, (pySplit ',' inner).length))
      | none =>
        if (ToonDecoder.split_top_level_commas (pyStrip l)).length ≠ exp then
          .error ⟨nm, i + 1, exp, (ToonDecoder.split_top_level_commas (pyStrip l)).length,
            (pyStrip l).take 50⟩
        else validateAux lines (i + 1) (some (nm, exp))) = _
  rw [if_neg (by simpa using h1)]
  simp only [h2]
  rw [if_pos h3]

theorem validateAux_error_iff : ∀ (lines : List (List Char)) (i : Nat)
    (sec : Option (List Char × Nat)),
    (∃ e, validateAux lines i sec = .error e) ↔ mismatchSome lines sec = true := by
  intro lines
  induction lines with
  | nil =>
    intro i sec
    constructor
    · rintro ⟨e, he⟩
      simp [validateAux] at he
    · intro h
      simp [mismatchSome] at h
  | cons l rest ih =>
    intro i sec
    by_cases hm : rowMismatch sec l = true
    · have hsec : ∃ nm exp, sec = some (nm, exp) := by
        cases sec with
        | none => exfalso; simp [rowMismatch] at hm
        | some p => exact ⟨p.1, p.2, rfl⟩
      obtain ⟨nm, exp, rfl⟩ := hsec
      rw [validateAux_step_err l rest i nm exp hm]
      constructor
      · intro _
        show (rowMismatch (some (nm, exp)) l ||
          mismatchSome rest (vStep (some (nm, exp)) l)) = true
        rw [hm, Bool.true_or]
      · intro _
        exact ⟨_, rfl⟩
    · have hm2 : rowMismatch sec l = false := by
        cases h2 : rowMismatch sec l
        · rfl
        · exact absurd h2 hm
      rw [validateAux_step_ok l rest i sec hm2]
      rw [show mismatchSome (l :: rest) sec =
        (rowMismatch sec l || mismatchSome rest (vStep sec l)) from rfl, hm2, Bool.false_or]
      exact ih (i + 1) (vStep sec l)

theorem validateAux_ok_of_no_header : ∀ (lines : List (List Char)) (i : Nat),
    (∀ l ∈ lines, vHeader (pyStrip l) = none) →
    validateAux lines i none = .ok true := by
  intro lines
  induction lines with
  | nil => intro i _; rfl
  | cons l rest ih =>
    intro i h
    have hl := h l (by simp)
    have hr : rowMismatch none l = false := by simp [rowMismatch]
    rw [validateAux_step_ok l rest i none hr]
    have hv : vStep none l = none := by simp [vStep, hl]
    rw [hv]
    exact ih (i + 1) (fun x hx => h x (by simp [hx]))

theorem firstSplit_lt : ∀ (t : List Char) (esc inQ : Bool) (depth i : Nat),
    firstSplit t esc inQ depth = some i → i < t.length := by
  intro t
  induction t with
  | nil => intro esc inQ depth i h; simp [firstSplit] at h
  | cons c rest ih =>
    intro esc inQ depth i h
    rw [firstSplit] at h
    split_ifs at h
    all_goals first
      | (obtain ⟨j, hj, hji⟩ := Option.map_eq_some'.1 h
         subst hji
         have hj2 := ih _ _ _ _ hj
         simp only [List.length_cons]
         omega)
      | (injection h with h2
         subst h2
         simp)

theorem splitAux_eq_first : ∀ (t : List Char) (esc inQ : Bool) (depth : Nat) (cur : List Char),
    ToonDecoder.splitAux t esc inQ depth cur =
      (match firstSplit t esc inQ depth with
       | some i => pyStrip (cur.reverse ++ t.take i) ::
           ToonDecoder.splitAux (t.drop (i + 1)) false false 0 []
       | none => if (cur.reverse ++ t).isEmpty then [] else [pyStrip (cur.reverse ++ t)]) := by
  intro t
  induction t with
  | nil =>
    intro esc inQ depth cur
    rw [ToonDecoder.splitAux]
    show _ = (if (cur.reverse ++ ([] : List Char)).isEmpty then []
      else [pyStrip (cur.reverse ++ [])])
    rw [List.append_nil]
    by_cases hc : cur = []
    · subst hc; rfl
    · rw [if_neg (by simpa using hc), if_neg (by simp [hc])]
  | cons c rest ih =>
    intro esc inQ depth cur
    rw [ToonDecoder.splitAux, firstSplit]
    by_cases h1 : esc = true
    · simp only [if_pos h1]
      rw [ih false inQ depth (c :: cur)]
      cases hf : firstSplit rest false inQ depth with
      | some j =>
        simp only [hf, Option.map_some']
        simp [List.reverse_cons, List.take_succ_cons, List.drop_succ_cons, List.append_assoc]
      | none =>
        simp only [hf, Option.map_none']
        rw [if_neg (by simp), if_neg (by simp)]
        simp [List.reverse_cons, List.append_assoc]
    · simp only [if_neg h1]
      by_cases h2 : c = '\\'
      · simp only [if_pos h2]
        rw [ih true inQ depth (c :: cur)]
        cases hf : firstSplit rest true inQ depth with
        | some j =>
          simp only [hf, Option.map_some']
          simp [List.reverse_cons, List.take_succ_cons, List.drop_succ_cons, List.append_assoc]
        | none =>
          simp only [hf, Option.map_none']
          rw [if_neg (by simp), if_neg (by simp)]
          simp [List.reverse_cons, List.append_assoc]
      · simp only [if_neg h2]
        by_cases h3 : c = '"'
        · simp only [if_pos h3]
          rw [ih false (!inQ) depth (c :: cur)]
          cases hf : firstSplit rest false (!inQ) depth with
          | some j =>
            simp only [hf, Option.map_some']
            simp [List.reverse_cons, List.take_succ_cons, List.drop_succ_cons, List.append_assoc]
          | none =>
            simp only [hf, Option.map_none']
            rw [if_neg (by simp), if_neg (by simp)]
            simp [List.reverse_cons, List.append_assoc]
        · simp only [if_neg h3]
          by_cases h4 : inQ = true
          · simp only [if_pos h4]
            rw [ih false inQ depth (c :: cur)]
            cases hf : firstSplit rest false inQ depth with
            | some j =>
              simp only [hf, Option.map_some']
              simp [List.reverse_cons, List.take_succ_cons, List.drop_succ_cons,
                List.append_assoc]
            | none =>
              simp only [hf, Option.map_none']
              rw [if_neg (by simp), if_neg (by simp)]
              simp [List.reverse_cons, List.append_assoc]
          · simp only [if_neg h4]
            by_cases h5 : c = '[' ∨ c = '{'
            · simp only [if_pos h5]
              rw [ih false inQ (depth + 1) (c :: cur)]
              cases hf : firstSplit rest false inQ (depth + 1) with
              | some j =>
                simp only [hf, Option.map_some']
                simp [List.reverse_cons, List.take_succ_cons, List.drop_succ_cons,
                  List.append_assoc]
              | none =>
                simp only [hf, Option.map_none']
                rw [if_neg (by simp), if_neg (by simp)]
                simp [List.reverse_cons, List.append_assoc]
            · simp only [if_neg h5]
              by_cases h6 : c = ']' ∨ c = '}'
              · simp only [if_pos h6]
                rw [ih false inQ (depth - 1) (c :: cur)]
                cases hf : firstSplit rest false inQ (depth - 1) with
                | some j =>
                  simp only [hf, Option.map_some']
                  simp [List.reverse_cons, List.take_succ_cons, List.drop_succ_cons,
                    List.append_assoc]
                | none =>
                  simp only [hf, Option.map_none']
                  rw [if_neg (by simp), if_neg (by simp)]
                  simp [List.reverse_cons, List.append_assoc]
              · simp only [if_neg h6]
                by_cases h7 : c = ',' ∧ depth = 0
                · simp only [if_pos h7]
                  have hq : inQ = false := by
                    cases inQ
                    · rfl
                    · exact absurd rfl h4
                  rw [hq, h7.2]
                  simp
                · simp only [if_neg h7]
                  rw [ih false inQ depth (c :: cur)]
                  cases hf : firstSplit rest false inQ depth with
                  | some j =>
                    simp only [hf, Option.map_some']
                    simp [List.reverse_cons, List.take_succ_cons, List.drop_succ_cons,
                      List.append_assoc]
                  | none =>
                    simp only [hf, Option.map_none']
                    rw [if_neg (by simp), if_neg (by simp)]
                    simp [List.reverse_cons, List.append_assoc]

theorem splitAux_eq_specPieces : ∀ (fuel : Nat) (t : List Char), t.length < fuel →
    ToonDecoder.splitAux t false false 0 [] = specPiecesF fuel t := by
  intro fuel
  induction fuel with
  | zero => intro t ht; omega
  | succ f ih =>
    intro t ht
    rw [splitAux_eq_first t false false 0 [], specPiecesF]
    cases hf : firstSplit t false false 0 with
    | some i =>
      simp only [hf]
      have hlt := firstSplit_lt t false false 0 i hf
      rw [ih (t.drop (i + 1)) (by simp; omega)]
      simp
    | none =>
      simp only [hf]
      simp

theorem split_eq_specTopSplit (t : List Char) :
    ToonDecoder.split_top_level_commas t = specTopSplit t :=
  splitAux_eq_specPieces (t.length + 1) t (by omega)

/-! ## Claim theorems -/

/-- Claim C1 (amended): decoding the encoder's output recovers a tabular
list of objects when the list has at least two elements, the objects share
one identical, duplicate-free list of identifier keys, and every value is
a safe scalar (null, boolean, integer, or a non-empty string free of the
special characters, backslash and Python line boundaries, with no edge
whitespace).  As literally stated the claim fails for lists of length
one, which decode returns as a single object (see the counterexample). -/
theorem c1_tabular_round_trip {kvs0 kvs1 : List (List Char × Value)}
    {rest : List (List (List Char × Value))}
    (hne0 : kvs0 ≠ []) (hnd : (kvs0.map Prod.fst).Nodup)
    (hk : ∀ kv ∈ kvs0, wordKey kv.1 = true)
    (hkeys : ∀ kvs ∈ (kvs0 :: kvs1 :: rest), kvs.map Prod.fst = kvs0.map Prod.fst)
    (hv : ∀ kvs ∈ (kvs0 :: kvs1 :: rest), ∀ kv ∈ kvs, SafeScalar kv.2 = true) :
    ∃ t, ToonEncoder.encode (.list ((kvs0 :: kvs1 :: rest).map Value.obj)) = .ok t ∧
      ToonDecoder.decode t = .value (.list ((kvs0 :: kvs1 :: rest).map Value.obj)) :=
  ⟨_, encode_tab_list hkeys, decode_tab_list hne0 hnd hk hkeys hv⟩

/-- Claim C1, counterexample to the literal statement: the singleton
tabular list `[{"a": 1}]` encodes to `{a}\n1`, which decodes to the bare
object `{"a": 1}`, not to the original one-element list. -/
theorem c1_counterexample :
    ToonEncoder.encode (Value.list [Value.obj [(("a".toList), Value.int 1)]]) =
      .ok ("\x7ba\x7d\n1".toList) ∧
    ToonDecoder.decode ("\x7ba\x7d\n1".toList) =
      .value (Value.obj [(("a".toList), Value.int 1)]) ∧
    ToonDecoder.Decoded.value (Value.obj [(("a".toList), Value.int 1)]) ≠
      ToonDecoder.Decoded.value (Value.list [Value.obj [(("a".toList), Value.int 1)]]) :=
  ⟨rfl, rfl, fun h => Value.noConfusion (ToonDecoder.Decoded.value.inj h)⟩

/-- Claim C1, witness: the two-row table `[{"a": 1}, {"a": 2}]` round
trips. -/
theorem c1_witness :
    ∃ t, ToonEncoder.encode (.list (([(("a".toList), Value.int 1)] ::
        [(("a".toList), Value.int 2)] :: []).map Value.obj)) = .ok t ∧
      ToonDecoder.decode t = .value (.list (([(("a".toList), Value.int 1)] ::
        [(("a".toList), Value.int 2)] :: []).map Value.obj)) :=
  c1_tabular_round_trip (by simp) (by simp)
    (by intro kv hkv; simp at hkv; subst hkv; decide)
    (by intro kvs hkvs; simp at hkvs; rcases hkvs with rfl | rfl <;> rfl)
    (by
      intro kvs hkvs
      simp at hkvs
      rcases hkvs with rfl | rfl <;>
        (intro kv hkv; simp at hkv; subst hkv; rfl))

/-- Claim C2 (amended): decoding the encoder's output recovers a flat
object when its keys are duplicate-free identifier keys and every value is
a safe scalar (null, boolean, integer, or a non-empty string free of the
special characters, backslash and Python line boundaries, with no edge
whitespace).  As literally stated the claim fails for other scalar
values, e.g. the empty string (see the counterexample). -/
theorem c2_simple_obj_round_trip {kvs : List (List Char × Value)}
    (hne : kvs ≠ []) (hnd : (kvs.map Prod.fst).Nodup)
    (hk : ∀ kv ∈ kvs, wordKey kv.1 = true)
    (hv : ∀ kv ∈ kvs, SafeScalar kv.2 = true) :
    ∃ t, ToonEncoder.encode (.obj kvs) = .ok t ∧
      ToonDecoder.decode t = .value (.obj kvs) :=
  ⟨_, encode_simple_obj hv, decode_simple_obj hne hnd hk hv⟩

/-- Claim C2, counterexample to the literal statement: the flat object
`{"a": ""}` has a scalar (string) value, encodes to `{a}\n`, whose body
holds no non-blank line, so decode returns the empty list instead of the
original object. -/
theorem c2_counterexample :
    ToonEncoder.encode (Value.obj [(("a".toList), Value.str [])]) =
      .ok ("\x7ba\x7d\n".toList) ∧
    ToonDecoder.decode ("\x7ba\x7d\n".toList) = .value (Value.list []) ∧
    ToonDecoder.Decoded.value (Value.list []) ≠
      ToonDecoder.Decoded.value (Value.obj [(("a".toList), Value.str [])]) :=
  ⟨rfl, rfl, fun h => Value.noConfusion (ToonDecoder.Decoded.value.inj h)⟩

/-- Claim C2, witness: `{"a": 1, "b": null}` round trips. -/
theorem c2_witness :
    ∃ t, ToonEncoder.encode (.obj [(("a".toList), Value.int 1),
        (("b".toList), Value.null)]) = .ok t ∧
      ToonDecoder.decode t = .value (.obj [(("a".toList), Value.int 1),
        (("b".toList), Value.null)]) :=
  c2_simple_obj_round_trip (by simp) (by decide)
    (by intro kv hkv; simp at hkv; rcases hkv with rfl | rfl <;> decide)
    (by intro kv hkv; simp at hkv; rcases hkv with rfl | rfl <;> rfl)

/-- Claim C3: a tabular block takes its column list from the first
element's keys, in key order; every row is produced by looking each of
those keys up in its element with `dict.get` (absent keys give `Null`,
which encodes as `null`), so later elements' extra keys are dropped.  The
two concrete conjuncts are the claim's widening and narrowing examples. -/
theorem c3_first_row_columns :
    (∀ (kvs0 : List (List Char × Value)) (rest : List (List (List Char × Value))),
      ToonEncoder.encode (.list ((kvs0 :: rest).map Value.obj)) =
        .ok ('{' :: ((joinSep [','] (kvs0.map Prod.fst)) ++ '}' :: '\n' ::
          joinSep ['\n'] ((kvs0 :: rest).map (fun kvs =>
            joinSep [','] ((kvs0.map Prod.fst).map (fun k =>
              ToonEncoder.encode_value (pyGet kvs k)))))))) ∧
    ToonEncoder.encode (Value.list [Value.obj [(("a".toList), Value.int 1),
        (("b".toList), Value.int 2)], Value.obj [(("a".toList), Value.int 3)]]) =
      .ok ("\x7ba,b\x7d\n1,2\n3,null".toList) ∧
    ToonEncoder.encode (Value.list [Value.obj [(("a".toList), Value.int 1)],
        Value.obj [(("a".toList), Value.int 2), (("b".toList), Value.int 3)]]) =
      .ok ("\x7ba\x7d\n1\n2".toList) := by
  refine ⟨?_, rfl, rfl⟩
  intro kvs0 rest
  rw [ToonEncoder.encode]
  show ToonEncoder.encode_list_block none ((kvs0 :: rest).map Value.obj) = _
  rw [List.map_cons]
  simp only [ToonEncoder.encode_list_block, rowsOf_all_obj_cons]
  simp [List.append_assoc]

/-- Claim C4 (amended): a string value is quoted exactly when it starts
like a number, contains a special character, or lowercases to a literal
word; but the embedded quotes are escaped only in the special-character
branch, which is reached only when the string does not start like a
number.  The spec's reading that quoting always escapes embedded quotes
fails on strings such as `1"2` (see the counterexample). -/
theorem c4_string_quoting :
    (∀ s, ToonEncoder.encode_value (.str s) =
      (if specStartsNumeric s then '"' :: (s ++ ['"'])
       else if specHasSpecial s then '"' :: (escapeQuotes s ++ ['"'])
       else if specLiteralLike s then '"' :: (s ++ ['"'])
       else s)) ∧
    ToonEncoder.encode_value (.str ("42".toList)) = ("\"42\"".toList) ∧
    ToonEncoder.encode_value (.str ("hello".toList)) = ("hello".toList) ∧
    ToonEncoder.encode_value (.str ("true".toList)) = ("\"true\"".toList) :=
  ⟨encode_str_eq, rfl, rfl, rfl⟩

/-- Claim C4, counterexample to the always-escaping reading: `1"2` starts
with a digit and contains a double quote, and its encoding leaves the
embedded quote unescaped. -/
theorem c4_counterexample :
    specStartsNumeric ("1\"2".toList) = true ∧
    specHasSpecial ("1\"2".toList) = true ∧
    ToonEncoder.encode_value (.str ("1\"2".toList)) = ("\"1\"2\"".toList) ∧
    ToonEncoder.encode_value (.str ("1\"2".toList)) ≠
      '"' :: (escapeQuotes ("1\"2".toList) ++ ['"']) := by
  refine ⟨rfl, rfl, rfl, ?_⟩
  decide

/-- Claim C5: the decoder is a total function of the input text — the
embedding returns a value on every input, the empty string decodes to
`Null`, and malformed inputs (a lone open bracket, an unterminated quoted
string) fall back to scalar string interpretation instead of failing. -/
theorem c5_decode_total :
    (∀ t, ∃ d, ToonDecoder.decode t = d) ∧
    ToonDecoder.decode [] = .value Value.null ∧
    ToonDecoder.decode ("[".toList) = .value (Value.str ("[".toList)) ∧
    ToonDecoder.decode ("\"ab".toList) = .value (Value.str ("\"ab".toList)) :=
  ⟨fun _ => ⟨_, rfl⟩, rfl, rfl, rfl⟩

/-- Claim C6: with exactly one, anonymous header the decoder returns the
anonymous block's value — a single object for one data line, a list of
objects (one per non-empty trimmed line) otherwise, each object zipping
the header's columns with the line's top-level comma split; with several
headers, or one named header, it returns an object keyed by header names.
The concrete conjunct is the claim's scalar-disambiguation example. -/
theorem c6_decode_branching :
    (∀ (text : List Char) (m : ToonDecoder.HeaderMatch),
      ¬((pyStrip text).head? = some '[' ∧ (pyStrip text).getLast? = some ']') →
      ToonDecoder.findHeaders (pyStrip text) = [m] → m.name = none →
      ToonDecoder.decode text = .value (ToonDecoder.sectionValue
        ((pySplit ',' m.keysRaw).map pyStrip) (pyStrip ((pyStrip text).drop m.mend)))) ∧
    (∀ (text : List Char) (m : ToonDecoder.HeaderMatch)
        (rest : List ToonDecoder.HeaderMatch),
      ¬((pyStrip text).head? = some '[' ∧ (pyStrip text).getLast? = some ']') →
      ToonDecoder.findHeaders (pyStrip text) = m :: rest →
      ¬(rest.isEmpty = true ∧ m.name = none) →
      ToonDecoder.decode text = .keyed (ToonDecoder.dictFromPairsO
        (ToonDecoder.decodeMultiPairs (pyStrip text) (m :: rest)))) ∧
    (∀ (keys : List (List Char)) (body ln : List Char),
      ((pySplitlines body).map pyStrip).filter (fun l => !l.isEmpty) = [ln] →
      ToonDecoder.sectionValue keys body = .obj (ToonDecoder.rowObj keys ln)) ∧
    (∀ (keys : List (List Char)) (body l1 l2 : List Char) (ls : List (List Char)),
      ((pySplitlines body).map pyStrip).filter (fun l => !l.isEmpty) = l1 :: l2 :: ls →
      ToonDecoder.sectionValue keys body =
        .list ((l1 :: l2 :: ls).map (fun ln => Value.obj (ToonDecoder.rowObj keys ln)))) ∧
    ToonDecoder.decode ("\x7ba,b\x7d\n\"42\",null".toList) =
      .value (Value.obj [(("a".toList), Value.str ("42".toList)),
        (("b".toList), Value.null)]) :=
  ⟨fun _ _ hb hm hn => decode_single_anon_eq hb hm hn,
   fun _ _ _ hb hm hnm => decode_multi_eq hb hm hnm,
   fun _ _ _ h => sectionValue_single h,
   fun _ _ _ _ _ h => sectionValue_cons2 h,
   rfl⟩

/-- Claim C6, witness: `{a}\n1` has a single anonymous header, and the
first branch applies to it. -/
theorem c6_witness :
    ToonDecoder.decode ("\x7ba\x7d\n1".toList) =
      .value (ToonDecoder.sectionValue
        ((pySplit ',' (ToonDecoder.HeaderMatch.mk none ("a".toList) 0 3).keysRaw).map pyStrip)
        (pyStrip ((pyStrip ("\x7ba\x7d\n1".toList)).drop
          (ToonDecoder.HeaderMatch.mk none ("a".toList) 0 3).mend))) :=
  c6_decode_branching.1 ("\x7ba\x7d\n1".toList)
    (ToonDecoder.HeaderMatch.mk none ("a".toList) 0 3)
    (by decide) (by decide) rfl

/-- Claim C7: the validator fails exactly when, scanning lines with the
active section cleared by blank lines and set by lowercase headers, some
remaining line's top-level comma split disagrees with the active
section's declared column count; the first such line is reported with the
section name, its 1-based line number, the expected and actual counts,
and the 50-character preview.  Empty input validates.  The concrete
conjunct is the claim's `users` example. -/
theorem c7_validator_mismatch :
    (∀ (lines : List (List Char)) (i : Nat) (sec : Option (List Char × Nat)),
      (∃ e, validateAux lines i sec = .error e) ↔ mismatchSome lines sec = true) ∧
    (∀ (l : List Char) (lines : List (List Char)) (i : Nat) (nm : List Char) (exp : Nat),
      rowMismatch (some (nm, exp)) l = true →
      validateAux (l :: lines) i (some (nm, exp)) =
        .error ⟨nm, i + 1, exp, (ToonDecoder.split_top_level_commas (pyStrip l)).length,
          (pyStrip l).take 50⟩) ∧
    validate_toon [] = .ok true ∧
    validate_toon ("users\x7bname,age\x7d\nAna,30\nBruno".toList) =
      .error ⟨("users".toList), 3, 2, 1, ("Bruno".toList)⟩ :=
  ⟨validateAux_error_iff,
   fun l lines i nm exp h => validateAux_step_err l lines i nm exp h,
   rfl, rfl⟩

/-- Claim C7, witness: the offending row `Bruno` of the example, reached
at index 2 with section `users` expecting 2 columns, errors with the
reported fields. -/
theorem c7_witness :
    validateAux [("Bruno".toList)] 2 (some (("users".toList), 2)) =
      .error ⟨("users".toList), 3, 2,
        (ToonDecoder.split_top_level_commas (pyStrip ("Bruno".toList))).length,
        (pyStrip ("Bruno".toList)).take 50⟩ :=
  c7_validator_mismatch.2.1 ("Bruno".toList) [] 2 ("users".toList) 2 (by decide)

/-- Claim C8 (amended): encode raises exactly on non-dict, non-list top
levels (a `TypeError`) and additionally on any rendered tabular block —
the top-level list, or a list value of a complex dict — whose first
element is a dict with at least one key while a later element is not a
dict (an `AttributeError` from the lazily evaluated `it.get`; with no
keys the generator is never advanced, so `[{}, 5]` encodes fine).  The
claim's "if and only if its argument is neither a List nor an Object"
direction fails on such mixed lists (see the counterexample); the
`TypeError` itself is indeed never raised for a List or Object
argument. -/
theorem c8_encode_errors :
    (∀ v, (∃ e, ToonEncoder.encode v = .error e) ↔ encodeRaises v = true) ∧
    (∀ items, ToonEncoder.encode (.list items) ≠ .error .typeError) ∧
    (∀ kvs, ToonEncoder.encode (.obj kvs) ≠ .error .typeError) ∧
    ToonEncoder.encode (Value.int 5) = .error .typeError ∧
    ToonEncoder.encode (Value.list [Value.obj [], Value.int 5]) =
      .ok ("\x7b\x7d\n\n".toList) := by
  refine ⟨?_, ?_, ?_, rfl, rfl⟩
  · intro v
    rcases encode_error_cases v with ⟨hr, e, he⟩ | ⟨hr, t, he⟩
    · exact ⟨fun _ => hr, fun _ => ⟨e, he⟩⟩
    · constructor
      · rintro ⟨e2, he2⟩
        rw [he] at he2
        cases he2
      · intro h2
        rw [h2] at hr
        cases hr
  · intro items h
    rcases encode_list_block_cases none items with ⟨_, he⟩ | ⟨_, t, he⟩
    · rw [show ToonEncoder.encode (.list items) =
        ToonEncoder.encode_list_block none items from rfl, he] at h
      cases h
    · rw [show ToonEncoder.encode (.list items) =
        ToonEncoder.encode_list_block none items from rfl, he] at h
      cases h
  · intro kvs h
    rcases encode_error_cases (.obj kvs) with ⟨_, e, he⟩ | ⟨_, t, he⟩
    · rw [he] at h
      have he2 : e = EncError.typeError := (Except.error.inj h)
      subst he2
      rw [ToonEncoder.encode] at he
      by_cases hC : kvs.any (fun kv => ToonEncoder.hasComplexValue kv.2) = true
      · rw [if_pos hC] at he
        rcases blocksOf_cases kvs with ⟨_, hb⟩ | ⟨_, bs, hb⟩
        · rw [hb] at he
          cases he
        · rw [hb] at he
          cases he
      · rw [if_neg hC] at he
        cases he
    · rw [he] at h
      cases h

/-- Claim C8, counterexample to the literal statement: the List
`[{"a": 1}, 5]` is a List, yet encode fails on it (with the
`AttributeError` of `it.get` on the non-dict element `5`). -/
theorem c8_counterexample :
    ToonEncoder.encode (Value.list [Value.obj [(("a".toList), Value.int 1)],
      Value.int 5]) = .error .attributeError ∧
    encodeRaises (Value.list [Value.obj [(("a".toList), Value.int 1)],
      Value.int 5]) = true :=
  ⟨rfl, rfl⟩

/-- Claim C8, witness: the empty list never raises the `TypeError`. -/
theorem c8_witness : ToonEncoder.encode (.list []) ≠ .error .typeError :=
  c8_encode_errors.2.1 []

/-- Claim C9 (amended): the tokenizer returns exactly the ordered,
trimmed substrings of the text between its splitting (outside-quotes,
depth-zero) commas — `specTopSplit` slices the text literally at the
position of each first splitting comma — and the final piece is emitted
only when at least one character follows the last splitting comma.  So
the piece count is the number of splitting commas plus one exactly in
that case, and equals the number of splitting commas otherwise (see the
counterexample). -/
theorem c9_tokenizer_pieces :
    (∀ t, ToonDecoder.split_top_level_commas t = specTopSplit t) ∧
    (∀ t, (ToonDecoder.split_top_level_commas t).length =
      topSplitCount t + (if finalPieceEmitted t = true then 1 else 0)) ∧
    (∀ t p, p ∈ ToonDecoder.split_top_level_commas t → pyStrip p = p) ∧
    (∀ t, finalPieceEmitted t = false →
      (ToonDecoder.split_top_level_commas t).length = topSplitCount t) := by
  have hlen : ∀ t, (ToonDecoder.split_top_level_commas t).length =
      topSplitCount t + (if finalPieceEmitted t = true then 1 else 0) := by
    intro t
    have h := splitAux_length t false false 0 []
    show (ToonDecoder.splitAux t false false 0 []).length = _
    rw [h]
    congr 1
    by_cases hf : (splitShape t false false 0).2 = true
    · have hf2 : finalPieceEmitted t = true := hf
      rw [if_pos (Or.inl hf), if_pos hf2]
    · have hf2 : ¬finalPieceEmitted t = true := hf
      rw [if_neg ?_, if_neg hf2]
      rintro (h1 | ⟨_, h2⟩)
      · exact hf h1
      · exact h2 rfl
  refine ⟨split_eq_specTopSplit, hlen, ?_, ?_⟩
  · intro t p hp
    exact splitAux_pieces_stripped t false false 0 [] p hp
  · intro t hf
    rw [hlen t, hf]
    rfl

/-- Claim C9, counterexample to the commas-plus-one count: `a,` has one
splitting comma but only one piece — nothing follows the final comma, so
no final piece is emitted. -/
theorem c9_counterexample :
    ToonDecoder.split_top_level_commas ("a,".toList) = [("a".toList)] ∧
    topSplitCount ("a,".toList) = 1 ∧
    (ToonDecoder.split_top_level_commas ("a,".toList)).length ≠
      topSplitCount ("a,".toList) + 1 := by
  refine ⟨rfl, rfl, ?_⟩
  decide

/-- Claim C9, witness: the pieces of `a,` are trimmed. -/
theorem c9_witness : pyStrip ("a".toList) = ("a".toList) :=
  c9_tokenizer_pieces.2.2.1 ("a,".toList) ("a".toList) (by decide)

/-- Claim C10: the validator's header pattern only matches lowercase
`[a-z_]+` names, so a text none of whose trimmed lines match it — in
particular texts whose headers are anonymous (as the encoder emits for
every simple object) or contain uppercase letters or digits (which the
decoder's broader pattern accepts) — validates without any row being
checked. -/
theorem c10_validator_header_gap :
    (∀ t, (∀ l ∈ pySplitlines (pyStrip t), vHeader (pyStrip l) = none) →
      validate_toon t = .ok true) ∧
    vHeader ("\x7ba,b\x7d".toList) = none ∧
    vHeader ("Users\x7ba\x7d".toList) = none ∧
    ToonDecoder.findHeaders ("Users\x7ba\x7d".toList) ≠ [] ∧
    validate_toon ("\x7ba,b\x7d\nAna".toList) = .ok true ∧
    validate_toon ("Users\x7bname,age\x7d\nBruno".toList) = .ok true := by
  refine ⟨?_, rfl, rfl, by decide, rfl, rfl⟩
  intro t h
  unfold validate_toon
  by_cases he : (pyStrip t).isEmpty
  · rw [if_pos he]
  · rw [if_neg he]
    exact validateAux_ok_of_no_header _ 0 h

/-- Claim C10, witness: the anonymous-header text `{a,b}\nAna` has no
line matching the validator's pattern, and validates. -/
theorem c10_witness : validate_toon ("\x7ba,b\x7d\nAna".toList) = .ok true :=
  c10_validator_header_gap.1 ("\x7ba,b\x7d\nAna".toList) (by decide)
